import Mathlib

/-!
Shallow embedding of the octovy vulnerability-scan ingestion core:
status reconciliation (`processVulnerabilities`), batched persistence
(`BatchCreateVulnerabilities`, `BatchUpdateVulnerabilityStatus`,
`ToFirestoreID`), BigQuery schema synchronization
(`createOrUpdateBigQueryTable`, `Client.Insert` retry loop) and the
orchestration entry point (`InsertScanResult`), together with theorems
settling the specification claims.
-/

namespace Octovy

/-! ## Association-list maps (modelling Go `map[string]T`) -/

/-- Lookup in an association list; mirrors Go map indexing given that
`mapInsert` keeps keys unique. -/
def lookupKey {α : Type} : List (String × α) → String → Option α
  | [], _ => none
  | e :: rest, k => if e.1 = k then some e.2 else lookupKey rest k

/-- Insert with overwrite; mirrors Go `m[k] = v`. -/
def mapInsert {α : Type} : List (String × α) → String → α → List (String × α)
  | [], k, v => [(k, v)]
  | e :: rest, k, v => if e.1 = k then (k, v) :: rest else e :: mapInsert rest k v

/-! ## Data model

Field layout follows `model.Vulnerability` as exercised by
`pkg/repository/testhelper/scan_repository.go` and the trivy report shape
used by `pkg/usecase/insert_scan_result.go`.  CVSS scores per source are
kept as a string-keyed association list (design note §9); timestamps are
natural numbers (epoch micros). -/

/-- Status of a stored vulnerability (`types.VulnStatus`).  `unknown`
models the Go zero value before `processVulnerabilities` assigns a
status. -/
inductive VulnStatus where
  | active
  | fixed
  | unknown
deriving DecidableEq, Repr

/-- One vulnerability found by one scan (`trivy.DetectedVulnerability`). -/
structure DetectedVulnerability where
  VulnerabilityID : String
  PkgName : String
  PkgPath : String
  PkgID : String
  InstalledVersion : String
  FixedVersion : String
  Severity : String
  Title : String
  Description : String
  References : List String
  PrimaryURL : String
  CweIDs : List String
  CVSS : List (String × String)
  PublishedDate : String
  LastModifiedDate : String
deriving DecidableEq, Repr

/-- Stored vulnerability record (`model.Vulnerability`). -/
structure Vulnerability where
  ID : String
  PkgName : String
  PkgPath : String
  InstalledVersion : String
  FixedVersion : String
  Severity : String
  Title : String
  Description : String
  References : List String
  PrimaryURL : String
  CweIDs : List String
  CVSS : List (String × String)
  PublishedDate : String
  LastModifiedDate : String
  Status : VulnStatus
  CreatedAt : Nat
  UpdatedAt : Nat
deriving DecidableEq, Repr

/-! ## Vulnerability identity hash

`trivy.DetectedVulnerability.ID` itself is not part of the provided
sources (only its tests in `TestDetectedVulnerabilityID` and its callers
are), so the digest is modelled from the spec: a SHA-256 content hash
over {vulnerability ID, package name, package path, package identifier},
rendered as a 64-character lowercase hex string. -/

/-- 32-bit truncation. -/
def w32 (n : Nat) : Nat := n % 4294967296

/-- Right rotation of a 32-bit word. -/
def rotr32 (k x : Nat) : Nat := w32 ((x >>> k) + ((x <<< (32 - k))))

/-- SHA-256 round constants (FIPS 180-4, in decimal). -/
def sha256K : List Nat :=
  [1116352408, 1899447441, 3049323471, 3921009573, 961987163,
   1508970993, 2453635748, 2870763221, 3624381080, 310598401,
   607225278, 1426881987, 1925078388, 2162078206, 2614888103,
   3248222580, 3835390401, 4022224774, 264347078, 604807628,
   770255983, 1249150122, 1555081692, 1996064986, 2554220882,
   2821834349, 2952996808, 3210313671, 3336571891, 3584528711,
   113926993, 338241895, 666307205, 773529912, 1294757372,
   1396182291, 1695183700, 1986661051, 2177026350, 2456956037,
   2730485921, 2820302411, 3259730800, 3345764771, 3516065817,
   3600352804, 4094571909, 275423344, 430227734, 506948616,
   659060556, 883997877, 958139571, 1322822218, 1537002063,
   1747873779, 1955562222, 2024104815, 2227730452, 2361852424,
   2428436474, 2756734187, 3204031479, 3329325298]

/-- Hash state: the eight working registers. -/
structure Hash8 where
  r0 : Nat
  r1 : Nat
  r2 : Nat
  r3 : Nat
  r4 : Nat
  r5 : Nat
  r6 : Nat
  r7 : Nat
deriving DecidableEq, Repr

/-- SHA-256 initial hash value. -/
def sha256Init : Hash8 :=
  ⟨1779033703, 3144134277, 1013904242, 2773480762,
   1359893119, 2600822924, 528734635, 1541459225⟩

/-- Small sigma 0. -/
def ssig0 (x : Nat) : Nat := w32 ((rotr32 7 x) ^^^ (rotr32 18 x) ^^^ (x >>> 3))

/-- Small sigma 1. -/
def ssig1 (x : Nat) : Nat := w32 ((rotr32 17 x) ^^^ (rotr32 19 x) ^^^ (x >>> 10))

/-- Big sigma 0. -/
def bsig0 (x : Nat) : Nat := w32 ((rotr32 2 x) ^^^ (rotr32 13 x) ^^^ (rotr32 22 x))

/-- Big sigma 1. -/
def bsig1 (x : Nat) : Nat := w32 ((rotr32 6 x) ^^^ (rotr32 11 x) ^^^ (rotr32 25 x))

/-- Extend the 16-word message block towards the 64-word schedule; `fuel`
counts the words still to append (48 for a full block). -/
def sha256Extend (ws : List Nat) : Nat → List Nat
  | 0 => ws
  | Nat.succ fuel =>
    let t := ws.length
    let wt := w32 (ssig1 (ws.getD (t - 2) 0) + ws.getD (t - 7) 0 +
                   ssig0 (ws.getD (t - 15) 0) + ws.getD (t - 16) 0)
    sha256Extend (ws ++ [wt]) fuel

/-- One compression round. -/
def sha256Round (st : Hash8) (kt wt : Nat) : Hash8 :=
  let ch := w32 ((st.r4 &&& st.r5) ^^^ ((4294967295 - st.r4) &&& st.r6))
  let maj := w32 ((st.r0 &&& st.r1) ^^^ (st.r0 &&& st.r2) ^^^ (st.r1 &&& st.r2))
  let t1 := w32 (st.r7 + bsig1 st.r4 + ch + kt + wt)
  let t2 := w32 (bsig0 st.r0 + maj)
  ⟨w32 (t1 + t2), st.r0, st.r1, st.r2, w32 (st.r3 + t1), st.r4, st.r5, st.r6⟩

/-- Compress one 64-word schedule into the hash state. -/
def sha256Compress (st : Hash8) (ws : List Nat) : Hash8 :=
  let fin := (List.zip sha256K ws).foldl (fun s kw => sha256Round s kw.1 kw.2) st
  ⟨w32 (st.r0 + fin.r0), w32 (st.r1 + fin.r1), w32 (st.r2 + fin.r2),
   w32 (st.r3 + fin.r3), w32 (st.r4 + fin.r4), w32 (st.r5 + fin.r5),
   w32 (st.r6 + fin.r6), w32 (st.r7 + fin.r7)⟩

/-- Big-endian 32-bit words from a 64-byte block. -/
def blockWords : List Nat → List Nat
  | b0 :: b1 :: b2 :: b3 :: rest =>
      (b0 * 16777216 + b1 * 65536 + b2 * 256 + b3) :: blockWords rest
  | _ => []

/-- Split input into 64-byte blocks; `fuel` bounds the number of blocks. -/
def toBlocksAux (fuel : Nat) (bytes : List Nat) : List (List Nat) :=
  match fuel with
  | 0 => []
  | Nat.succ f =>
    if bytes = [] then []
    else bytes.take 64 :: toBlocksAux f (bytes.drop 64)

/-- Split padded input into 64-byte blocks. -/
def toBlocks (bytes : List Nat) : List (List Nat) :=
  toBlocksAux bytes.length bytes

/-- Big-endian byte rendering of a value in `k` bytes. -/
def beBytes (k v : Nat) : List Nat :=
  match k with
  | 0 => []
  | Nat.succ k2 => (v >>> (8 * k2)) % 256 :: beBytes k2 v

/-- SHA-256 message padding. -/
def sha256Pad (msg : List Nat) : List Nat :=
  let len := msg.length
  let zeros := (120 - ((len + 1) % 64)) % 64
  msg ++ [128] ++ List.replicate zeros 0 ++ beBytes 8 (8 * len)

/-- SHA-256 over a byte list, producing the 32 digest bytes. -/
def sha256Bytes (msg : List Nat) : List Nat :=
  let st := (toBlocks (sha256Pad msg)).foldl
    (fun s blk => sha256Compress s (sha256Extend (blockWords blk) 48)) sha256Init
  beBytes 4 st.r0 ++ beBytes 4 st.r1 ++ beBytes 4 st.r2 ++ beBytes 4 st.r3 ++
  beBytes 4 st.r4 ++ beBytes 4 st.r5 ++ beBytes 4 st.r6 ++ beBytes 4 st.r7

/-- Lowercase hex digit. -/
def hexDigit (n : Nat) : Char := "0123456789abcdef".toList.getD n '0'

/-- Two hex characters of one byte. -/
def byteHex (b : Nat) : List Char := [hexDigit ((b / 16) % 16), hexDigit (b % 16)]

/-- Hex string of a byte list. -/
def bytesToHex (bs : List Nat) : String := ⟨bs.flatMap byteHex⟩

/-- UTF-8 bytes of one code point (Go `[]byte(s)` encoding). -/
def utf8Bytes (c : Nat) : List Nat :=
  if c < 128 then [c]
  else if c < 2048 then [192 + c / 64, 128 + c % 64]
  else if c < 65536 then [224 + c / 4096, 128 + (c / 64) % 64, 128 + c % 64]
  else [240 + c / 262144, 128 + (c / 4096) % 64, 128 + (c / 64) % 64, 128 + c % 64]

/-- UTF-8 bytes of a string. -/
def strBytes (s : String) : List Nat := s.toList.flatMap (fun c => utf8Bytes c.toNat)

/-- Modelled from the spec: `trivy.DetectedVulnerability.ID` is absent from
the provided sources (only `TestDetectedVulnerabilityID` and callers are
present); per §4.2 it is a deterministic SHA-256 content hash over
{vulnerability ID, package name, package path, package identifier},
returned as a 64-character hex digest. -/
def DetectedVulnerability.ID (v : DetectedVulnerability) : String :=
  bytesToHex (sha256Bytes (strBytes
    (v.VulnerabilityID ++ "|" ++ v.PkgName ++ "|" ++ v.PkgPath ++ "|" ++ v.PkgID)))

/-! ## Reconciliation (`processVulnerabilities` in
`pkg/usecase/insert_scan_result.go`) -/

/-- Modelled from the spec: `model.NewVulnerability` is absent from the
provided sources (only its caller `processVulnerabilities` is); per §3 it
builds the stored record for one detection, with `ID` the identity hash of
§4.2, descriptive fields copied from the detection, and status and
timestamps left at their zero values (the caller assigns them). -/
def NewVulnerability (d : DetectedVulnerability) : Vulnerability :=
  { ID := d.ID
    PkgName := d.PkgName
    PkgPath := d.PkgPath
    InstalledVersion := d.InstalledVersion
    FixedVersion := d.FixedVersion
    Severity := d.Severity
    Title := d.Title
    Description := d.Description
    References := d.References
    PrimaryURL := d.PrimaryURL
    CweIDs := d.CweIDs
    CVSS := d.CVSS
    PublishedDate := d.PublishedDate
    LastModifiedDate := d.LastModifiedDate
    Status := VulnStatus.unknown
    CreatedAt := 0
    UpdatedAt := 0 }

/-- `existingMap` of `processVulnerabilities`: Go map keyed by record ID
(later entries overwrite earlier ones). -/
def buildExistingMap (existing : List Vulnerability) : List (String × Vulnerability) :=
  existing.foldl (fun m v => mapInsert m v.ID v) []

/-- Accumulator of the detected-vulnerabilities loop. -/
structure DiffState where
  detectedIDs : List (String × Bool)
  newVulns : List Vulnerability
  statusUpdates : List (String × VulnStatus)
deriving Repr

/-- Body of the first loop of `processVulnerabilities`: classify one
detected vulnerability against the existing map. -/
def detectOne (em : List (String × Vulnerability)) (timestamp : Nat)
    (st : DiffState) (d : DetectedVulnerability) : DiffState :=
  let vuln := NewVulnerability d
  let st1 := { st with detectedIDs := mapInsert st.detectedIDs vuln.ID true }
  match lookupKey em vuln.ID with
  | some existingVuln =>
      if existingVuln.Status = VulnStatus.fixed then
        { st1 with statusUpdates := mapInsert st1.statusUpdates vuln.ID VulnStatus.active }
      else st1
  | none =>
      { st1 with newVulns := st1.newVulns ++
          [{ vuln with Status := VulnStatus.active,
                       CreatedAt := timestamp, UpdatedAt := timestamp }] }

/-- Body of the second loop of `processVulnerabilities`: mark an existing
vulnerability Fixed when it was not detected and is currently Active. -/
def fixOne (detectedIDs : List (String × Bool))
    (su : List (String × VulnStatus)) (e : String × Vulnerability) :
    List (String × VulnStatus) :=
  if (lookupKey detectedIDs e.1).getD false = true then su
  else if e.2.Status = VulnStatus.active then mapInsert su e.1 VulnStatus.fixed
  else su

/-- The pure diff computed by `processVulnerabilities`
(`pkg/usecase/insert_scan_result.go:151-210`): the list of records to
create and the map of status updates. -/
def reconcileDiff (existing : List Vulnerability)
    (detected : List DetectedVulnerability) (timestamp : Nat) :
    List Vulnerability × List (String × VulnStatus) :=
  let em := buildExistingMap existing
  let st := detected.foldl (detectOne em timestamp) ⟨[], [], []⟩
  let su := em.foldl (fixOne st.detectedIDs) st.statusUpdates
  (st.newVulns, su)

/-! ## Firestore key encoding (`ToFirestoreID`,
`pkg/repository/firestore/scan.go:29-47`) -/

/-- Error kinds of the Firestore scan repository. -/
inductive RepoErr where
  | invalidInput (msg : String)
deriving DecidableEq, Repr

/-- Firestore-safe document ID for an (owner, repo) pair, mirroring
`ToFirestoreID`: colon-separated, rejecting empty components and
components containing a colon. -/
def ToFirestoreID (owner repo : String) : Except RepoErr String :=
  if owner = "" ∨ repo = "" then
    Except.error (.invalidInput "owner or repo is empty")
  else if owner.toList.contains ':' ∨ repo.toList.contains ':' then
    Except.error (.invalidInput "owner or repo contains invalid character ':'")
  else Except.ok (owner ++ ":" ++ repo)

/-! ## Batched creation (`BatchCreateVulnerabilities`,
`pkg/repository/firestore/scan.go:419-462`) -/

/-- Firestore batch limit (`batchSize` constant). -/
def batchSize : Nat := 500

/-- Outcome of a batched repository call. -/
inductive BatchResult where
  | ok
  | invalidInput
  | failed (batchStart batchEnd : Nat)
deriving DecidableEq, Repr

/-- The chunked commit loop of `BatchCreateVulnerabilities`: `i` is the
running start index, `n` the total length, `commitOk` the outcome of the
backing store's `batch.Commit` for the chunk starting at a given index,
and the returned list collects the chunks whose commit succeeded.  `fuel`
bounds the recursion (the remaining list shrinks by `batchSize` each
step). -/
def batchCommitAux (commitOk : Nat → Bool) (n : Nat) :
    Nat → List Vulnerability → Nat → BatchResult × List (List Vulnerability)
  | 0, _, _ => (.ok, [])
  | Nat.succ f, rem, i =>
    if rem = [] then (.ok, [])
    else
      let chunk := rem.take batchSize
      let endI := min (i + batchSize) n
      if commitOk i then
        let r := batchCommitAux commitOk n f (rem.drop batchSize) (i + batchSize)
        (r.1, chunk :: r.2)
      else (.failed i endI, [])

/-- Go `strings.Split(s, "/")`, character-based. -/
def splitSlash (s : String) : List String :=
  (s.toList.splitOn '/').map (fun cs => String.mk cs)

/-- `BatchCreateVulnerabilities`: parses the repo ID, derives the
Firestore key, then commits the vulnerabilities in chunks of
`batchSize`. -/
def BatchCreateVulnerabilities (commitOk : Nat → Bool) (repoID : String)
    (vulns : List Vulnerability) : BatchResult × List (List Vulnerability) :=
  match splitSlash repoID with
  | [owner, repo] =>
    match ToFirestoreID owner repo with
    | Except.error _ => (.invalidInput, [])
    | Except.ok _ => batchCommitAux commitOk vulns.length vulns.length vulns 0
  | _ => (.invalidInput, [])

/-- Plain consecutive chunking of a list (the partition the commit loop
walks). -/
def chunksOf (k : Nat) : Nat → List Vulnerability → List (List Vulnerability)
  | 0, _ => []
  | Nat.succ f, l => if l = [] then [] else l.take k :: chunksOf k f (l.drop k)

/-! ## Batched status updates (`BatchUpdateVulnerabilityStatus`) -/

/-- Store effect of the Firestore `BatchUpdateVulnerabilityStatus`
(`pkg/repository/firestore/scan.go:499-506`): each addressed document
gets exactly the field paths `Status` and `UpdatedAt` written; every
other document is untouched. -/
def fsBatchUpdateVulnerabilityStatus (store : List (String × Vulnerability))
    (updates : List (String × VulnStatus)) (now : Nat) :
    List (String × Vulnerability) :=
  store.map (fun e =>
    match lookupKey updates e.1 with
    | some s => (e.1, { e.2 with Status := s, UpdatedAt := now })
    | none => e)

/-- Store effect of the in-memory `BatchUpdateVulnerabilityStatus`
(`pkg/repository/memory/scan.go:339-343`): only the `Status` field of an
addressed, present record is assigned; absent IDs are skipped. -/
def memBatchUpdateVulnerabilityStatus (store : List (String × Vulnerability))
    (updates : List (String × VulnStatus)) : List (String × Vulnerability) :=
  store.map (fun e =>
    match lookupKey updates e.1 with
    | some s => (e.1, { e.2 with Status := s })
    | none => e)

/-- Store effect of `BatchCreateVulnerabilities` on the vulnerability
collection: Firestore `batch.Set` is an upsert keyed by the record ID. -/
def fsBatchCreateApply (store : List (String × Vulnerability))
    (vulns : List Vulnerability) : List (String × Vulnerability) :=
  vulns.foldl (fun st v => mapInsert st v.ID v) store

/-! ## BigQuery schema synchronization
(`createOrUpdateBigQueryTable`, `pkg/usecase/insert_scan_result.go:57-92`,
and `Client.GetMetadata`, `pkg/infra/bq/client.go:76-86`) -/

/-- One field of a BigQuery schema.  The `bqs` library's nested field
structure is collapsed to (name, type); this is enough for the structural
equality and merge the synchronizer relies on. -/
structure BQField where
  name : String
  typ : String
deriving DecidableEq, Repr

/-- A BigQuery table schema. -/
abbrev BQSchema := List BQField

/-- Table metadata as fetched by `GetMetadata`. -/
structure TableMetadata where
  Schema : BQSchema
  ETag : String
deriving DecidableEq, Repr

/-- Modelled from the spec: `bqs.Equal` (external library) is structural
schema equality. -/
def bqsEqual (a b : BQSchema) : Bool := a = b

/-- Modelled from the spec: `bqs.Merge` (external library) keeps the
existing fields in order and appends the new fields absent from the
existing schema. -/
def bqsMerge (old new : BQSchema) : BQSchema :=
  old ++ new.filter (fun f => ¬ old.any (fun g => g.name = f.name))

/-- Raw result of the BigQuery metadata fetch before `GetMetadata`
normalizes it. -/
inductive MetaFetch where
  | notFound
  | found (md : TableMetadata)
  | fail (msg : String)
deriving DecidableEq, Repr

/-- `Client.GetMetadata`: a 404 from the API is normalized to a `none`
metadata with no error; other failures propagate. -/
def GetMetadata : MetaFetch → Except String (Option TableMetadata)
  | .notFound => Except.ok none
  | .found md => Except.ok (some md)
  | .fail msg => Except.error msg

/-- Scan record (`model.Scan`). -/
structure GitHubMetadata where
  Owner : String
  RepoName : String
  RepoID : Int
  Branch : String
  CommitID : String
  DefaultBranch : String
  InstallationID : Int
deriving DecidableEq, Repr

/-- One scanned unit of a trivy report (`trivy.Result`); `Typ` renders
the Go field `Type`, a keyword here. -/
structure TrivyResult where
  Target : String
  Class : String
  Typ : String
  Vulnerabilities : List DetectedVulnerability
deriving DecidableEq, Repr

/-- Trivy report (`trivy.Report`).  `Results = none` models a nil Go
slice, distinct from an empty one. -/
structure Report where
  SchemaVersion : Int
  ArtifactName : String
  ArtifactType : String
  Results : Option (List TrivyResult)
deriving DecidableEq, Repr

/-- One ingestion's analytical record (`model.Scan`). -/
structure Scan where
  ID : String
  Timestamp : Nat
  GitHub : GitHubMetadata
  Report : Report
deriving DecidableEq, Repr

/-- Row written to BigQuery (`model.ScanRawRecord`): the scan with the
timestamp flattened to epoch micros. -/
structure ScanRawRecord where
  scan : Scan
  Timestamp : Int
deriving DecidableEq, Repr

/-- Operations issued against the BigQuery collaborator. -/
inductive BQOp where
  | getMetadata
  | createTable (schema : BQSchema)
  | updateTable (schema : BQSchema) (etag : String)
  | insertRow (rec : ScanRawRecord)
deriving DecidableEq, Repr

/-- Retry classification and attempt outcomes of `Client.Insert`. -/
inductive InsertErr where
  | grpcInvalidArgument (msg : String)
  | other (msg : String)
  | wrapped (attempts : Nat) (inner : InsertErr)
deriving DecidableEq, Repr

/-- Responses of the BigQuery collaborator for one ingestion:
`inferredSchema` stands for `bqs.Infer(scan)` (reflective inference,
supplied as data), `insertAttempt n` is the outcome of the n-th
`attemptInsert` call (`none` = success). -/
structure BQWorld where
  inferOk : Bool
  inferredSchema : BQSchema
  metaRaw : MetaFetch
  createTableOk : Bool
  updateTableOk : Bool
  insertAttempt : Nat → Option InsertErr

/-- `createOrUpdateBigQueryTable`: infer the schema, fetch metadata, then
create the table (absent), leave it alone (schemas structurally equal) or
update it to the merged schema under the fetched ETag.  Returns the
schema to write with, the `schemaUpdated` flag, and the trace of
BigQuery operations issued. -/
def createOrUpdateBigQueryTable (w : BQWorld) :
    Except String (BQSchema × Bool) × List BQOp :=
  if ¬ w.inferOk then (Except.error "failed to infer scan schema", [])
  else
    match GetMetadata w.metaRaw with
    | Except.error e => (Except.error e, [.getMetadata])
    | Except.ok none =>
      if w.createTableOk then
        (Except.ok (w.inferredSchema, false),
         [.getMetadata, .createTable w.inferredSchema])
      else
        (Except.error "failed to create BigQuery table",
         [.getMetadata, .createTable w.inferredSchema])
    | Except.ok (some md) =>
      if bqsEqual md.Schema w.inferredSchema then
        (Except.ok (w.inferredSchema, false), [.getMetadata])
      else
        let merged := bqsMerge md.Schema w.inferredSchema
        if w.updateTableOk then
          (Except.ok (merged, true), [.getMetadata, .updateTable merged md.ETag])
        else
          (Except.error "failed to update BigQuery table",
           [.getMetadata, .updateTable merged md.ETag])

/-! ## BigQuery write retry loop (`Client.Insert`,
`pkg/infra/bq/client.go:89-150`) -/

/-- `maxRetries` constant. -/
def maxRetries : Nat := 10

/-- `initialBackoff` constant (5s, in nanoseconds). -/
def initialBackoff : Nat := 5000000000

/-- `maxBackoff` constant (60s, in nanoseconds). -/
def maxBackoff : Nat := 60000000000

/-- Diagnostic message head recognized by `isSchemaNotFoundError`. -/
def schemaMismatchMsgHead : String :=
  "Input schema has more fields than BigQuery schema, extra fields:"

/-- Character-level string head test (Go `strings.HasPrefix`). -/
def strHasHead (p s : String) : Bool := p.toList.isPrefixOf s.toList

/-- `isSchemaNotFoundError`: a gRPC InvalidArgument whose message starts
with the schema-mismatch diagnostic, unwrapping wrapped errors. -/
def isSchemaNotFoundError : InsertErr → Bool
  | .grpcInvalidArgument msg => strHasHead schemaMismatchMsgHead msg
  | .other _ => false
  | .wrapped _ e => isSchemaNotFoundError e

/-- `interfaces.BigQueryInsertConfig`. -/
structure BigQueryInsertConfig where
  EnableRetry : Bool
deriving DecidableEq, Repr

/-- `interfaces.BigQueryInsertOption`. -/
abbrev BigQueryInsertOption := BigQueryInsertConfig → BigQueryInsertConfig

/-- `interfaces.WithRetry`. -/
def WithRetry (retry : Bool) : BigQueryInsertOption :=
  fun c => { c with EnableRetry := retry }

/-- Observable outcome of one `Client.Insert` call: final result, number
of `attemptInsert` calls made, and the backoff durations slept. -/
structure InsertRun where
  result : Option InsertErr
  attemptsMade : Nat
  sleeps : List Nat
deriving DecidableEq, Repr

/-- `backoff = backoff * 1.5`, capped at `maxBackoff` (exact on the even
nanosecond values the loop produces). -/
def nextBackoff (b : Nat) : Nat :=
  if b * 3 / 2 > maxBackoff then maxBackoff else b * 3 / 2

/-- The retry loop of `Client.Insert`: attempts are tried while the error
is a schema mismatch, retry is enabled, and the attempt budget remains;
`fuel` is `maxRetries + 1` at the top-level call, matching the loop bound
`attempt <= maxRetries`. -/
def insertLoop (enableRetry : Bool) (attemptRes : Nat → Option InsertErr) :
    Nat → Nat → Nat → InsertRun
  | 0, attempt, _ => ⟨none, attempt, []⟩
  | Nat.succ f, attempt, backoff =>
    match attemptRes attempt with
    | none => ⟨none, attempt + 1, []⟩
    | some e =>
      if ¬ isSchemaNotFoundError e then ⟨some e, attempt + 1, []⟩
      else if ¬ enableRetry then ⟨some e, attempt + 1, []⟩
      else if attempt ≥ maxRetries then ⟨some (.wrapped (attempt + 1) e), attempt + 1, []⟩
      else
        let r := insertLoop enableRetry attemptRes f (attempt + 1) (nextBackoff backoff)
        ⟨r.result, r.attemptsMade, backoff :: r.sleeps⟩

/-- `Client.Insert`: folds the variadic options into the config and runs
the retry loop.  The context is carried but — exactly as in the source —
never consulted for the retry decision. -/
def ClientInsert (insertCtx : List (String × Bool))
    (attemptRes : Nat → Option InsertErr)
    (opts : List BigQueryInsertOption) : InsertRun :=
  let cfg := opts.foldl (fun c o => o c) ⟨false⟩
  let _ := insertCtx
  insertLoop cfg.EnableRetry attemptRes (maxRetries + 1) 0 initialBackoff

/-- The BigQuery write of `InsertScanResult`
(`pkg/usecase/insert_scan_result.go:40-44`): the `schemaUpdated` flag is
stored under the context key "schema_updated" and `Insert` is called with
no options. -/
def insertScanResultBQWrite (schemaUpdated : Bool)
    (ctx : List (String × Bool)) (attemptRes : Nat → Option InsertErr) :
    InsertRun :=
  let insertCtx := mapInsert ctx "schema_updated" schemaUpdated
  ClientInsert insertCtx attemptRes []

/-! ## Report validation

`trivy.Report.Validate` itself is not under the provided sources (only
`TestReportValidation` and its callers are), so it is modelled from the
spec §4.1 and those tests. -/

/-- Structural validation failures of a report. -/
inductive ValidationErr where
  | invalidSchemaVersion
  | emptyArtifactName
  | nilResults
  | emptyTarget (index : Nat)
deriving DecidableEq, Repr

/-- First result with an empty target, reported with its index. -/
def firstEmptyTarget : List TrivyResult → Nat → Option ValidationErr
  | [], _ => none
  | r :: rest, i =>
    if r.Target = "" then some (.emptyTarget i) else firstEmptyTarget rest (i + 1)

/-- Modelled from the spec: `trivy.Report.Validate` is absent from the
provided sources; per §4.1 it fails when the schema version is 0 or
negative, the artifact name is empty, the results list is nil, or some
result has an empty target string (carrying the offending index), and is
otherwise a pure success. -/
def Report.Validate (r : Report) : Option ValidationErr :=
  if r.SchemaVersion ≤ 0 then some .invalidSchemaVersion
  else if r.ArtifactName = "" then some .emptyArtifactName
  else
    match r.Results with
    | none => some .nilResults
    | some rs => firstEmptyTarget rs 0

/-! ## Firestore ingestion phase (`insertToFirestore` and the effectful
`processVulnerabilities`, `pkg/usecase/insert_scan_result.go:95-210`) -/

/-- Stored repository record (`model.Repository`). -/
structure Repository where
  ID : String
  Owner : String
  Name : String
  DefaultBranch : String
  InstallationID : Int
  CreatedAt : Nat
  UpdatedAt : Nat
deriving DecidableEq, Repr

/-- Stored branch record (`model.Branch`). -/
structure Branch where
  Name : String
  LastScanID : String
  LastScanAt : Nat
  LastCommitSHA : String
  Status : String
  CreatedAt : Nat
  UpdatedAt : Nat
deriving DecidableEq, Repr

/-- Stored target record (`model.Target`); `Typ` renders the Go field
`Type` and `TargetName` the Go field `Target` (namespace clash here). -/
structure Target where
  ID : String
  TargetName : String
  Class : String
  Typ : String
  CreatedAt : Nat
  UpdatedAt : Nat
deriving DecidableEq, Repr

/-- `model.ToTargetID`: SHA-256 hex of the target string, for a
Firestore-safe document ID. -/
def ToTargetID (target : String) : String :=
  bytesToHex (sha256Bytes (strBytes target))

/-- Operations issued against the stores during one ingestion. -/
inductive StoreOp where
  | bq (op : BQOp)
  | fsUpsertRepo (r : Repository)
  | fsUpsertBranch (repoID : String) (b : Branch)
  | fsUpsertTarget (repoID branchName : String) (t : Target)
  | fsListVulns (repoID branchName targetID : String)
  | fsBatchCreate (repoID branchName targetID : String) (vulns : List Vulnerability)
  | fsBatchUpdate (repoID branchName targetID : String)
      (updates : List (String × VulnStatus))
deriving DecidableEq, Repr

/-- Responses of the Firestore scan repository for one ingestion, keyed
by target ID where the call is per-target. -/
structure FSWorld where
  repoOpOk : Bool
  branchOpOk : Bool
  targetOpOk : String → Bool
  listVulnsRes : String → Except String (List Vulnerability)
  batchCreateOk : String → Bool
  batchUpdateOk : String → Bool

/-- Effectful `processVulnerabilities`: list the stored vulnerabilities
for the target, compute the reconciliation diff, then batch-create the
new records (only when non-empty) and batch-update the statuses (only
when non-empty), stopping at the first failure. -/
def processVulnerabilities (w : FSWorld) (repoID branchName targetID : String)
    (detectedVulns : List DetectedVulnerability) (timestamp : Nat) :
    Except String Unit × List StoreOp :=
  let listOp : StoreOp := .fsListVulns repoID branchName targetID
  match w.listVulnsRes targetID with
  | Except.error _ => (Except.error "failed to list existing vulnerabilities", [listOp])
  | Except.ok existing =>
    let d := reconcileDiff existing detectedVulns timestamp
    let afterCreate : Except String Unit × List StoreOp :=
      if d.1 = [] then (Except.ok (), [listOp])
      else if w.batchCreateOk targetID then
        (Except.ok (), [listOp, .fsBatchCreate repoID branchName targetID d.1])
      else
        (Except.error "failed to batch create vulnerabilities",
         [listOp, .fsBatchCreate repoID branchName targetID d.1])
    match afterCreate.1 with
    | Except.error _ => afterCreate
    | Except.ok _ =>
      if d.2 = [] then afterCreate
      else if w.batchUpdateOk targetID then
        (Except.ok (), afterCreate.2 ++ [.fsBatchUpdate repoID branchName targetID d.2])
      else
        (Except.error "failed to batch update vulnerability status",
         afterCreate.2 ++ [.fsBatchUpdate repoID branchName targetID d.2])

/-- Per-result loop of `insertToFirestore`: upsert the target record,
then reconcile its vulnerabilities; the loop is sequential and stops at
the first failure. -/
def insertToFirestoreLoop (w : FSWorld) (repoID branchName : String)
    (timestamp : Nat) : List TrivyResult → Except String Unit × List StoreOp
  | [] => (Except.ok (), [])
  | result :: rest =>
    let targetID := ToTargetID result.Target
    let t : Target :=
      { ID := targetID, TargetName := result.Target, Class := result.Class,
        Typ := result.Typ, CreatedAt := timestamp, UpdatedAt := timestamp }
    let targetOp : StoreOp := .fsUpsertTarget repoID branchName t
    if w.targetOpOk targetID then
      let p := processVulnerabilities w repoID branchName targetID
        result.Vulnerabilities timestamp
      match p.1 with
      | Except.error e => (Except.error e, targetOp :: p.2)
      | Except.ok _ =>
        let r := insertToFirestoreLoop w repoID branchName timestamp rest
        (r.1, targetOp :: p.2 ++ r.2)
    else (Except.error "failed to create or update target", [targetOp])

/-- `insertToFirestore`: upsert the repository and branch records, then
process each result of the report in order. -/
def insertToFirestore (w : FSWorld) (meta : GitHubMetadata) (scanRec : Scan)
    (report : Report) : Except String Unit × List StoreOp :=
  let repoID := meta.Owner ++ "/" ++ meta.RepoName
  let repository : Repository :=
    { ID := repoID, Owner := meta.Owner, Name := meta.RepoName,
      DefaultBranch := meta.DefaultBranch, InstallationID := meta.InstallationID,
      CreatedAt := scanRec.Timestamp, UpdatedAt := scanRec.Timestamp }
  if ¬ w.repoOpOk then
    (Except.error "failed to create or update repository", [.fsUpsertRepo repository])
  else
    let branch : Branch :=
      { Name := meta.Branch, LastScanID := scanRec.ID,
        LastScanAt := scanRec.Timestamp, LastCommitSHA := meta.CommitID,
        Status := "success", CreatedAt := scanRec.Timestamp,
        UpdatedAt := scanRec.Timestamp }
    if ¬ w.branchOpOk then
      (Except.error "failed to create or update branch",
       [.fsUpsertRepo repository, .fsUpsertBranch repoID branch])
    else
      let r := insertToFirestoreLoop w repoID meta.Branch scanRec.Timestamp
        (report.Results.getD [])
      (r.1, .fsUpsertRepo repository :: .fsUpsertBranch repoID branch :: r.2)

/-! ## Orchestration entry point (`InsertScanResult`,
`pkg/usecase/insert_scan_result.go:16-55`) -/

/-- Errors surfaced by `InsertScanResult`. -/
inductive IngestErr where
  | invalidReport (e : ValidationErr)
  | bqFailure (msg : String)
  | fsFailure (msg : String)
deriving DecidableEq, Repr

/-- The configured collaborators: `none` models an unconfigured store. -/
structure World where
  bq : Option BQWorld
  fs : Option FSWorld

/-- `InsertScanResult`: validate the report; on success build the scan
record (with the freshly generated `scanID` and current time `now`,
both modelled as inputs since their generation is nondeterministic),
synchronize and write BigQuery when configured, then run the Firestore
phase when configured.  The Go function returns only an `error`; the
`Unit` success value mirrors that. -/
def InsertScanResult (w : World) (scanID : String) (now : Nat)
    (meta : GitHubMetadata) (report : Report) :
    Except IngestErr Unit × List StoreOp :=
  match Report.Validate report with
  | some e => (Except.error (.invalidReport e), [])
  | none =>
    let scanRec : Scan := { ID := scanID, Timestamp := now, GitHub := meta,
                            Report := report }
    let bqPhase : Except IngestErr Unit × List StoreOp :=
      match w.bq with
      | none => (Except.ok (), [])
      | some bw =>
        let c := createOrUpdateBigQueryTable bw
        match c.1 with
        | Except.error m => (Except.error (.bqFailure m), c.2.map StoreOp.bq)
        | Except.ok (_, schemaUpdated) =>
          let rawRecord : ScanRawRecord := { scan := scanRec, Timestamp := (now : Int) }
          let run := insertScanResultBQWrite schemaUpdated [] bw.insertAttempt
          match run.result with
          | some _ =>
            (Except.error (.bqFailure "failed to insert scan data to BigQuery"),
             c.2.map StoreOp.bq ++ [.bq (.insertRow rawRecord)])
          | none =>
            (Except.ok (), c.2.map StoreOp.bq ++ [.bq (.insertRow rawRecord)])
    match bqPhase.1 with
    | Except.error _ => bqPhase
    | Except.ok _ =>
      match w.fs with
      | none => bqPhase
      | some fw =>
        let r := insertToFirestore fw meta scanRec report
        match r.1 with
        | Except.error m => (Except.error (.fsFailure m), bqPhase.2 ++ r.2)
        | Except.ok _ => (Except.ok (), bqPhase.2 ++ r.2)

/-! ## Association-list lemmas -/

theorem lookupKey_mapInsert_self {α : Type} (m : List (String × α)) (k : String) (v : α) :
    lookupKey (mapInsert m k v) k = some v := by
  induction m with
  | nil => simp [mapInsert, lookupKey]
  | cons e rest ih =>
    simp only [mapInsert]
    by_cases h : e.1 = k
    · rw [if_pos h]
      simp [lookupKey]
    · rw [if_neg h]
      simp only [lookupKey]
      rw [if_neg h]
      exact ih

theorem lookupKey_mapInsert_ne {α : Type} (m : List (String × α)) (k k' : String) (v : α)
    (h : k' ≠ k) : lookupKey (mapInsert m k v) k' = lookupKey m k' := by
  induction m with
  | nil =>
    simp only [mapInsert, lookupKey]
    rw [if_neg (fun hc : k = k' => h hc.symm)]
  | cons e rest ih =>
    simp only [mapInsert]
    by_cases he : e.1 = k
    · rw [if_pos he]
      simp only [lookupKey]
      rw [if_neg (fun hc : k = k' => h hc.symm),
          if_neg (fun hc : e.1 = k' => h (hc.symm.trans he))]
    · rw [if_neg he]
      simp only [lookupKey]
      by_cases he' : e.1 = k'
      · rw [if_pos he', if_pos he']
      · rw [if_neg he', if_neg he']
        exact ih

/-- Keys of an association list are pairwise distinct. -/
def keysUnique {α : Type} (m : List (String × α)) : Prop :=
  m.Pairwise (fun a b => a.1 ≠ b.1)

theorem mem_mapInsert {α : Type} (m : List (String × α)) (k : String) (v : α)
    (x : String × α) (hx : x ∈ mapInsert m k v) : x.1 = k ∨ x ∈ m := by
  induction m with
  | nil =>
    simp only [mapInsert, List.mem_singleton] at hx
    subst hx
    exact Or.inl rfl
  | cons e rest ih =>
    simp only [mapInsert] at hx
    by_cases he : e.1 = k
    · rw [if_pos he] at hx
      rcases List.mem_cons.mp hx with hx | hx
      · subst hx
        exact Or.inl rfl
      · exact Or.inr (List.mem_cons_of_mem _ hx)
    · rw [if_neg he] at hx
      rcases List.mem_cons.mp hx with hx | hx
      · subst hx
        exact Or.inr (List.mem_cons_self _ _)
      · rcases ih hx with h | h
        · exact Or.inl h
        · exact Or.inr (List.mem_cons_of_mem _ h)

theorem keysUnique_mapInsert {α : Type} (m : List (String × α)) (k : String) (v : α)
    (h : keysUnique m) : keysUnique (mapInsert m k v) := by
  induction m with
  | nil => simp [mapInsert, keysUnique]
  | cons e rest ih =>
    rcases List.pairwise_cons.mp h with ⟨hn, hp⟩
    by_cases he : e.1 = k
    · simp only [keysUnique, mapInsert, he, if_true]
      refine List.pairwise_cons.mpr ⟨?_, hp⟩
      intro b hb
      exact he ▸ hn b hb
    · simp only [keysUnique, mapInsert, he, if_false]
      refine List.pairwise_cons.mpr ⟨?_, ih hp⟩
      intro b hb
      rcases mem_mapInsert rest k v b hb with hbk | hbm
      · exact hbk ▸ he
      · exact hn b hbm

theorem keysUnique_buildExistingMap (l : List Vulnerability) :
    keysUnique (buildExistingMap l) := by
  have aux : ∀ (l : List Vulnerability) (acc : List (String × Vulnerability)),
      keysUnique acc → keysUnique (l.foldl (fun m v => mapInsert m v.ID v) acc) := by
    intro l
    induction l with
    | nil => intro acc h; exact h
    | cons v rest ih =>
      intro acc h
      exact ih _ (keysUnique_mapInsert acc v.ID v h)
  exact aux l [] List.Pairwise.nil

theorem any_key_of_lookup_none {α : Type} (m : List (String × α)) (k : String)
    (h : lookupKey m k = none) (p : α → Bool) :
    m.any (fun e => e.1 == k && p e.2) = false := by
  induction m with
  | nil => rfl
  | cons e rest ih =>
    simp only [lookupKey] at h
    by_cases he : e.1 = k
    · rw [if_pos he] at h
      exact absurd h (by simp)
    · rw [if_neg he] at h
      simp only [List.any_cons, ih h, Bool.or_false]
      simp [he]

theorem any_key_of_lookup_some {α : Type} (m : List (String × α)) (k : String) (v : α)
    (hu : keysUnique m) (h : lookupKey m k = some v) (p : α → Bool) :
    m.any (fun e => e.1 == k && p e.2) = p v := by
  induction m with
  | nil => exact absurd h (by simp [lookupKey])
  | cons e rest ih =>
    rcases List.pairwise_cons.mp hu with ⟨hn, hp⟩
    simp only [lookupKey] at h
    by_cases he : e.1 = k
    · rw [if_pos he] at h
      have hv : e.2 = v := by injection h
      have hrest : rest.any (fun e2 => e2.1 == k && p e2.2) = false := by
        refine List.any_eq_false.mpr ?_
        intro x hx
        have : x.1 ≠ k := fun hk => (hn x hx) (he.trans hk.symm)
        simp [this]
      simp [List.any_cons, he, hv, hrest]
    · rw [if_neg he] at h
      simp only [List.any_cons, ih hp h]
      simp [he]

/-! ## Reconciliation diff characterization -/

/-- The record `processVulnerabilities` appends to `newVulns` for a fresh
detection: the detection's stored form, Active, stamped with the scan
timestamp. -/
def mkCreate (ts : Nat) (d : DetectedVulnerability) : Vulnerability :=
  { NewVulnerability d with Status := VulnStatus.active,
                            CreatedAt := ts, UpdatedAt := ts }

/-- Go `detectedMap[k]` read (zero value `false`). -/
def detectedHit (dm : List (String × Bool)) (k : String) : Bool :=
  (lookupKey dm k).getD false

@[simp]
theorem NewVulnerability_ID (d : DetectedVulnerability) :
    (NewVulnerability d).ID = d.ID := rfl

/-- Whether the existing map holds `k` with status Fixed. -/
def fixedInMap (em : List (String × Vulnerability)) (k : String) : Bool :=
  match lookupKey em k with
  | some ev => decide (ev.Status = VulnStatus.fixed)
  | none => false

theorem detectOne_detectedIDs (em : List (String × Vulnerability)) (ts : Nat)
    (st : DiffState) (d : DetectedVulnerability) :
    (detectOne em ts st d).detectedIDs = mapInsert st.detectedIDs d.ID true := by
  simp only [detectOne]
  cases lookupKey em (NewVulnerability d).ID with
  | none => rfl
  | some ev =>
    by_cases hf : ev.Status = VulnStatus.fixed
    · simp [hf]
    · simp [hf]

theorem detectOne_newVulns (em : List (String × Vulnerability)) (ts : Nat)
    (st : DiffState) (d : DetectedVulnerability) :
    (detectOne em ts st d).newVulns =
      if (lookupKey em d.ID).isNone then st.newVulns ++ [mkCreate ts d]
      else st.newVulns := by
  simp only [detectOne]
  cases h : lookupKey em (NewVulnerability d).ID with
  | none =>
    have : lookupKey em d.ID = none := h
    simp [this, mkCreate]
  | some ev =>
    have : lookupKey em d.ID = some ev := h
    by_cases hf : ev.Status = VulnStatus.fixed
    · simp [hf, this]
    · simp [hf, this]

theorem detectOne_statusUpdates (em : List (String × Vulnerability)) (ts : Nat)
    (st : DiffState) (d : DetectedVulnerability) :
    (detectOne em ts st d).statusUpdates =
      if fixedInMap em d.ID then mapInsert st.statusUpdates d.ID VulnStatus.active
      else st.statusUpdates := by
  simp only [detectOne, fixedInMap]
  cases h : lookupKey em (NewVulnerability d).ID with
  | none =>
    have h2 : lookupKey em d.ID = none := h
    simp [h2]
  | some ev =>
    have h2 : lookupKey em d.ID = some ev := h
    by_cases hf : ev.Status = VulnStatus.fixed
    · simp [hf, h2]
    · simp [hf, h2]

theorem detectedHit_mapInsert (dm : List (String × Bool)) (k k' : String) (b : Bool) :
    detectedHit (mapInsert dm k b) k' = if k' = k then b else detectedHit dm k' := by
  by_cases h : k' = k
  · subst h
    simp [detectedHit, lookupKey_mapInsert_self]
  · simp [detectedHit, lookupKey_mapInsert_ne dm k k' b h, h]

theorem detectFold_newVulns (em : List (String × Vulnerability)) (ts : Nat)
    (ds : List DetectedVulnerability) (st : DiffState) :
    (ds.foldl (detectOne em ts) st).newVulns =
      st.newVulns ++ (ds.filter (fun d => (lookupKey em d.ID).isNone)).map (mkCreate ts) := by
  induction ds generalizing st with
  | nil => simp
  | cons d rest ih =>
    simp only [List.foldl_cons, ih, List.filter_cons]
    by_cases h : (lookupKey em d.ID).isNone
    · simp [detectOne_newVulns, h]
    · simp [detectOne_newVulns, h]

theorem detectFold_detected (em : List (String × Vulnerability)) (ts : Nat)
    (ds : List DetectedVulnerability) (st : DiffState) (k : String) :
    detectedHit (ds.foldl (detectOne em ts) st).detectedIDs k =
      (detectedHit st.detectedIDs k || ds.any (fun d => d.ID == k)) := by
  induction ds generalizing st with
  | nil => simp
  | cons d rest ih =>
    simp only [List.foldl_cons, ih, detectOne_detectedIDs, detectedHit_mapInsert,
      List.any_cons]
    by_cases h : k = d.ID
    · subst h
      simp
    · have h2 : (d.ID == k) = false :=
        beq_eq_false_iff_ne.mpr (fun hc => h hc.symm)
      simp [h, h2]

theorem detectFold_statusUpdates (em : List (String × Vulnerability)) (ts : Nat)
    (ds : List DetectedVulnerability) (st : DiffState) (k : String) :
    lookupKey (ds.foldl (detectOne em ts) st).statusUpdates k =
      if ds.any (fun d => d.ID == k) && fixedInMap em k then some VulnStatus.active
      else lookupKey st.statusUpdates k := by
  induction ds generalizing st with
  | nil => simp
  | cons d rest ih =>
    simp only [List.foldl_cons, ih, List.any_cons]
    by_cases hd : d.ID = k
    · subst hd
      by_cases hf : fixedInMap em d.ID
      · simp only [detectOne_statusUpdates, if_pos hf]
        by_cases ha : rest.any (fun d2 => d2.ID == d.ID)
        · simp [ha, hf]
        · simp [ha, hf, lookupKey_mapInsert_self]
      · simp [detectOne_statusUpdates, hf]
    · have hd2 : (d.ID == k) = false := by simp [hd]
      simp only [hd2, Bool.false_or]
      by_cases hf : fixedInMap em d.ID
      · simp only [detectOne_statusUpdates, if_pos hf]
        by_cases ha : rest.any (fun d2 => d2.ID == k) && fixedInMap em k
        · simp [ha]
        · simp [ha, lookupKey_mapInsert_ne _ _ _ _ (fun hc : k = d.ID => hd hc.symm)]
      · simp [detectOne_statusUpdates, hf]

theorem fixFold_statusUpdates (dm : List (String × Bool))
    (es : List (String × Vulnerability)) (su : List (String × VulnStatus)) (k : String) :
    lookupKey (es.foldl (fixOne dm) su) k =
      if es.any (fun e => e.1 == k && !detectedHit dm e.1 &&
                          decide (e.2.Status = VulnStatus.active)) then
        some VulnStatus.fixed
      else lookupKey su k := by
  induction es generalizing su with
  | nil => simp
  | cons e rest ih =>
    simp only [List.foldl_cons, ih, List.any_cons]
    by_cases hdm : detectedHit dm e.1
    · have hdm' : (lookupKey dm e.1).getD false = true := hdm
      have hstep : fixOne dm su e = su := by
        simp [fixOne, hdm']
      rw [hstep]
      simp only [hdm, Bool.not_true, Bool.and_false, Bool.false_and, Bool.false_or]
    · have hdm' : (lookupKey dm e.1).getD false = false :=
        Bool.eq_false_iff.mpr hdm
      have hdmf : detectedHit dm e.1 = false := hdm'
      by_cases hs : e.2.Status = VulnStatus.active
      · have hs2 : decide (e.2.Status = VulnStatus.active) = true := by
          simp [hs]
        have hstep : fixOne dm su e = mapInsert su e.1 VulnStatus.fixed := by
          simp [fixOne, hdm', hs]
        rw [hstep]
        by_cases he : e.1 = k
        · subst he
          rw [lookupKey_mapInsert_self]
          simp only [hdmf, Bool.not_false, hs2, beq_self_eq_true, Bool.true_and,
            Bool.and_self, Bool.true_or, if_true, ite_self]
        · have he2 : (e.1 == k) = false := beq_eq_false_iff_ne.mpr he
          rw [lookupKey_mapInsert_ne su e.1 k VulnStatus.fixed
            (fun hc : k = e.1 => he hc.symm)]
          simp only [he2, Bool.false_and, Bool.false_or]
      · have hs2 : decide (e.2.Status = VulnStatus.active) = false := by
          simp [hs]
        have hstep : fixOne dm su e = su := by
          simp [fixOne, hdm', hs]
        rw [hstep]
        simp only [hs2, Bool.and_false, Bool.false_or]
theorem any_and_key {α : Type} (m : List (String × α)) (k : String)
    (p : String → α → Bool) :
    m.any (fun e => e.1 == k && p e.1 e.2) = m.any (fun e => e.1 == k && p k e.2) := by
  induction m with
  | nil => rfl
  | cons e rest ih =>
    simp only [List.any_cons, ih]
    by_cases he : e.1 = k
    · rw [he]
    · have he2 : (e.1 == k) = false := beq_eq_false_iff_ne.mpr he
      rw [he2]
      simp

theorem reconcileDiff_fst (existing : List Vulnerability)
    (detected : List DetectedVulnerability) (ts : Nat) :
    (reconcileDiff existing detected ts).1 =
      (detected.filter
        (fun d => (lookupKey (buildExistingMap existing) d.ID).isNone)).map
        (mkCreate ts) := by
  simp only [reconcileDiff]
  exact detectFold_newVulns (buildExistingMap existing) ts detected ⟨[], [], []⟩

theorem reconcileDiff_lookup (existing : List Vulnerability)
    (detected : List DetectedVulnerability) (ts : Nat) (k : String) :
    lookupKey (reconcileDiff existing detected ts).2 k =
      if detected.any (fun d => d.ID == k) then
        (if fixedInMap (buildExistingMap existing) k then some VulnStatus.active
         else none)
      else if (buildExistingMap existing).any
          (fun e => e.1 == k && decide (e.2.Status = VulnStatus.active)) then
        some VulnStatus.fixed
      else none := by
  simp only [reconcileDiff]
  rw [fixFold_statusUpdates, detectFold_statusUpdates]
  simp only [Bool.and_assoc]
  rw [any_and_key (buildExistingMap existing) k
      (fun k2 v => !detectedHit (detected.foldl
        (detectOne (buildExistingMap existing) ts) ⟨[], [], []⟩).detectedIDs k2 &&
        decide (v.Status = VulnStatus.active))]
  simp only [detectFold_detected]
  have h0 : detectedHit (DiffState.mk [] [] []).detectedIDs k = false := rfl
  rw [h0]
  simp only [Bool.false_or]
  by_cases hD : detected.any (fun d => d.ID == k)
  · simp only [hD, Bool.not_true, Bool.false_and, Bool.and_false, Bool.true_and,
      if_true]
    have hz : ((buildExistingMap existing).any fun _ => false) = false := by
      simp
    rw [hz]
    simp [lookupKey]
  · have hD2 : (detected.any fun d => d.ID == k) = false := Bool.eq_false_iff.mpr hD
    simp only [hD2, Bool.not_false, Bool.true_and, Bool.false_and, if_false,
      Bool.false_or]
    simp [lookupKey]

theorem detectFold_statusUpdates_nil (em : List (String × Vulnerability)) (ts : Nat)
    (ds : List DetectedVulnerability) (st : DiffState)
    (h : ∀ d ∈ ds, ∀ ev, lookupKey em d.ID = some ev → ev.Status ≠ VulnStatus.fixed) :
    (ds.foldl (detectOne em ts) st).statusUpdates = st.statusUpdates := by
  induction ds generalizing st with
  | nil => rfl
  | cons d rest ih =>
    have hf : fixedInMap em d.ID = false := by
      unfold fixedInMap
      cases hev : lookupKey em d.ID with
      | none => rfl
      | some ev =>
        simp [h d (List.mem_cons_self _ _) ev hev]
    rw [List.foldl_cons, ih _ (fun d2 hd2 => h d2 (List.mem_cons_of_mem _ hd2)),
      detectOne_statusUpdates, hf, if_neg]
    simp

theorem fixFold_preserved (dm : List (String × Bool))
    (es : List (String × Vulnerability)) (su : List (String × VulnStatus))
    (h : ∀ e ∈ es, e.2.Status = VulnStatus.active → detectedHit dm e.1 = true) :
    es.foldl (fixOne dm) su = su := by
  induction es generalizing su with
  | nil => rfl
  | cons e rest ih =>
    have hstep : fixOne dm su e = su := by
      by_cases hdm : detectedHit dm e.1
      · have hdm' : (lookupKey dm e.1).getD false = true := hdm
        simp [fixOne, hdm']
      · have hdm' : (lookupKey dm e.1).getD false = false := Bool.eq_false_iff.mpr hdm
        have hs : e.2.Status ≠ VulnStatus.active := by
          intro hs
          exact hdm (h e (List.mem_cons_self _ _) hs)
        simp [fixOne, hdm', hs]
    rw [List.foldl_cons, hstep, ih _ (fun e2 he2 => h e2 (List.mem_cons_of_mem _ he2))]

/-- C1: `processVulnerabilities` computes, per identity ID, exactly the
spec's transitions: fresh detections are created Active with both
timestamps set to the scan timestamp; detections of a Fixed record yield
a status update to Active; detections of an Active record yield no
update; undetected Active records yield a status update to Fixed;
undetected Fixed records yield neither an update nor a create. -/
theorem C1_process_vulnerabilities_transitions (existing : List Vulnerability)
    (detected : List DetectedVulnerability) (ts : Nat) :
    (∀ d ∈ detected, lookupKey (buildExistingMap existing) d.ID = none →
       ∃ v ∈ (reconcileDiff existing detected ts).1,
         v.ID = d.ID ∧ v.Status = VulnStatus.active ∧
         v.CreatedAt = ts ∧ v.UpdatedAt = ts) ∧
    (∀ d ∈ detected, ∀ ev, lookupKey (buildExistingMap existing) d.ID = some ev →
       ev.Status = VulnStatus.fixed →
       lookupKey (reconcileDiff existing detected ts).2 d.ID = some VulnStatus.active) ∧
    (∀ d ∈ detected, ∀ ev, lookupKey (buildExistingMap existing) d.ID = some ev →
       ev.Status = VulnStatus.active →
       lookupKey (reconcileDiff existing detected ts).2 d.ID = none) ∧
    (∀ k ev, lookupKey (buildExistingMap existing) k = some ev →
       (∀ d ∈ detected, d.ID ≠ k) → ev.Status = VulnStatus.active →
       lookupKey (reconcileDiff existing detected ts).2 k = some VulnStatus.fixed) ∧
    (∀ k ev, lookupKey (buildExistingMap existing) k = some ev →
       (∀ d ∈ detected, d.ID ≠ k) → ev.Status = VulnStatus.fixed →
       lookupKey (reconcileDiff existing detected ts).2 k = none ∧
       ∀ v ∈ (reconcileDiff existing detected ts).1, v.ID ≠ k) := by
  refine ⟨?_, ?_, ?_, ?_, ?_⟩
  · intro d hd hnone
    refine ⟨mkCreate ts d, ?_, rfl, rfl, rfl, rfl⟩
    rw [reconcileDiff_fst]
    exact List.mem_map_of_mem _ (List.mem_filter.mpr ⟨hd, by simp [hnone]⟩)
  · intro d hd ev hev hfix
    rw [reconcileDiff_lookup]
    have hD : (detected.any fun d2 => d2.ID == d.ID) = true :=
      List.any_eq_true.mpr ⟨d, hd, by simp⟩
    have hF : fixedInMap (buildExistingMap existing) d.ID = true := by
      simp [fixedInMap, hev, hfix]
    simp [hD, hF]
  · intro d hd ev hev hact
    rw [reconcileDiff_lookup]
    have hD : (detected.any fun d2 => d2.ID == d.ID) = true :=
      List.any_eq_true.mpr ⟨d, hd, by simp⟩
    have hF : fixedInMap (buildExistingMap existing) d.ID = false := by
      simp [fixedInMap, hev, hact]
    simp [hD, hF]
  · intro k ev hev hnd hact
    rw [reconcileDiff_lookup]
    have hD : (detected.any fun d2 => d2.ID == k) = false := by
      refine List.any_eq_false.mpr ?_
      intro d2 hd2
      simp [hnd d2 hd2]
    have hA : ((buildExistingMap existing).any
        fun e => e.1 == k && decide (e.2.Status = VulnStatus.active)) = true := by
      rw [any_key_of_lookup_some (buildExistingMap existing) k ev
        (keysUnique_buildExistingMap existing) hev
        (fun v => decide (v.Status = VulnStatus.active))]
      simp [hact]
    simp [hD, hA]
  · intro k ev hev hnd hfix
    constructor
    · rw [reconcileDiff_lookup]
      have hD : (detected.any fun d2 => d2.ID == k) = false := by
        refine List.any_eq_false.mpr ?_
        intro d2 hd2
        simp [hnd d2 hd2]
      have hA : ((buildExistingMap existing).any
          fun e => e.1 == k && decide (e.2.Status = VulnStatus.active)) = false := by
        rw [any_key_of_lookup_some (buildExistingMap existing) k ev
          (keysUnique_buildExistingMap existing) hev
          (fun v => decide (v.Status = VulnStatus.active))]
        simp [hfix]
      simp [hD, hA]
    · intro v hv
      rw [reconcileDiff_fst] at hv
      rcases List.mem_map.mp hv with ⟨d0, hd0f, rfl⟩
      rcases List.mem_filter.mp hd0f with ⟨hd0, -⟩
      exact hnd d0 hd0

/-- Fixture: a detection with the given advisory ID and fixed small
identity fields. -/
def wD (s : String) : DetectedVulnerability :=
  { VulnerabilityID := s, PkgName := "p", PkgPath := "q", PkgID := "r",
    InstalledVersion := "", FixedVersion := "", Severity := "", Title := "",
    Description := "", References := [], PrimaryURL := "", CweIDs := [],
    CVSS := [], PublishedDate := "", LastModifiedDate := "" }

/-- Fixture: a stored record with the given ID and status. -/
def wE (idStr : String) (st : VulnStatus) : Vulnerability :=
  { ID := idStr, PkgName := "p", PkgPath := "q", InstalledVersion := "",
    FixedVersion := "", Severity := "", Title := "", Description := "",
    References := [], PrimaryURL := "", CweIDs := [], CVSS := [],
    PublishedDate := "", LastModifiedDate := "", Status := st,
    CreatedAt := 1, UpdatedAt := 1 }

/-- Fixture inputs exercising all five C1 transitions. -/
def wDet1 : List DetectedVulnerability := [wD "N", wD "F", wD "A"]

/-- Fixture stored state for the C1 witness. -/
def wEx1 : List Vulnerability :=
  [wE (wD "F").ID VulnStatus.fixed, wE (wD "A").ID VulnStatus.active,
   wE "IDACT" VulnStatus.active, wE "IDFIX" VulnStatus.fixed]

set_option maxRecDepth 100000 in
/-- Witness for C1 at a concrete input exercising all five transitions. -/
theorem C1_process_vulnerabilities_transitions_witness :
    (∃ v ∈ (reconcileDiff wEx1 wDet1 7).1,
       v.ID = (wD "N").ID ∧ v.Status = VulnStatus.active ∧
       v.CreatedAt = 7 ∧ v.UpdatedAt = 7) ∧
    lookupKey (reconcileDiff wEx1 wDet1 7).2 (wD "F").ID = some VulnStatus.active ∧
    lookupKey (reconcileDiff wEx1 wDet1 7).2 (wD "A").ID = none ∧
    lookupKey (reconcileDiff wEx1 wDet1 7).2 "IDACT" = some VulnStatus.fixed ∧
    lookupKey (reconcileDiff wEx1 wDet1 7).2 "IDFIX" = none ∧
    (∀ v ∈ (reconcileDiff wEx1 wDet1 7).1, v.ID ≠ "IDFIX") := by
  have h := C1_process_vulnerabilities_transitions wEx1 wDet1 7
  have h5 := h.2.2.2.2 "IDFIX" (wE "IDFIX" VulnStatus.fixed) (by decide)
    (by decide) rfl
  exact ⟨h.1 (wD "N") (by decide) (by decide),
    h.2.1 (wD "F") (by decide) (wE (wD "F").ID VulnStatus.fixed) (by decide) rfl,
    h.2.2.1 (wD "A") (by decide) (wE (wD "A").ID VulnStatus.active) (by decide) rfl,
    h.2.2.2.1 "IDACT" (wE "IDACT" VulnStatus.active) (by decide) (by decide) rfl,
    h5.1, h5.2⟩

/-- C8: the reconciliation diff is a pure function of its inputs
(computing it twice yields identical outputs), and at steady state —
every detected ID already stored with status Active and every stored
Active record re-detected — both outputs are empty and the effectful
`processVulnerabilities` issues only the list read: no batch-create and
no batch-update call. -/
theorem C8_reconcile_idempotent_steady (existing : List Vulnerability)
    (detected : List DetectedVulnerability) (ts : Nat) (w : FSWorld)
    (repoID branchName targetID : String)
    (hlist : w.listVulnsRes targetID = Except.ok existing)
    (hdet : ∀ d ∈ detected, ∃ ev,
      lookupKey (buildExistingMap existing) d.ID = some ev ∧
      ev.Status = VulnStatus.active)
    (hact : ∀ e ∈ buildExistingMap existing, e.2.Status = VulnStatus.active →
      ∃ d ∈ detected, d.ID = e.1) :
    reconcileDiff existing detected ts = reconcileDiff existing detected ts ∧
    (reconcileDiff existing detected ts).1 = [] ∧
    (reconcileDiff existing detected ts).2 = [] ∧
    processVulnerabilities w repoID branchName targetID detected ts =
      (Except.ok (), [StoreOp.fsListVulns repoID branchName targetID]) := by
  have h1 : (reconcileDiff existing detected ts).1 = [] := by
    rw [reconcileDiff_fst]
    have hfe : detected.filter
        (fun d => (lookupKey (buildExistingMap existing) d.ID).isNone) = [] := by
      refine List.filter_eq_nil_iff.mpr ?_
      intro d hd
      rcases hdet d hd with ⟨ev, hev, -⟩
      simp [hev]
    rw [hfe]
    rfl
  have hsu : (detected.foldl (detectOne (buildExistingMap existing) ts)
      ⟨[], [], []⟩).statusUpdates = [] := by
    rw [detectFold_statusUpdates_nil]
    intro d hd ev hev
    rcases hdet d hd with ⟨ev2, hev2, hst2⟩
    rw [hev] at hev2
    injection hev2 with hee
    rw [← hee] at hst2
    rw [hst2]
    intro hc
    cases hc
  have hcond : ∀ e ∈ buildExistingMap existing, e.2.Status = VulnStatus.active →
      detectedHit (detected.foldl (detectOne (buildExistingMap existing) ts)
        ⟨[], [], []⟩).detectedIDs e.1 = true := by
    intro e he hst
    rcases hact e he hst with ⟨d, hd, hid⟩
    rw [detectFold_detected]
    have hany2 : (detected.any fun d2 => d2.ID == e.1) = true :=
      List.any_eq_true.mpr ⟨d, hd, by simp [hid]⟩
    simp [hany2]
  have h2 : (reconcileDiff existing detected ts).2 = [] := by
    simp only [reconcileDiff]
    rw [fixFold_preserved _ _ _ hcond, hsu]
  have h3 : processVulnerabilities w repoID branchName targetID detected ts =
      (Except.ok (), [StoreOp.fsListVulns repoID branchName targetID]) := by
    simp only [processVulnerabilities, hlist]
    simp [h1, h2]
  exact ⟨rfl, h1, h2, h3⟩

/-- Fixture detected list for the C8 witness. -/
def wDet8 : List DetectedVulnerability := [wD "S"]

/-- Fixture stored state for the C8 witness. -/
def wEx8 : List Vulnerability := [wE (wD "S").ID VulnStatus.active]

/-- Fixture store responses for the C8 witness. -/
def wFS8 : FSWorld :=
  { repoOpOk := true, branchOpOk := true, targetOpOk := fun _ => true,
    listVulnsRes := fun _ => Except.ok wEx8,
    batchCreateOk := fun _ => true, batchUpdateOk := fun _ => true }

set_option maxRecDepth 100000 in
/-- Witness for C8: a concrete steady-state re-scan produces empty diff
output and only the list read. -/
theorem C8_reconcile_idempotent_steady_witness :
    (reconcileDiff wEx8 wDet8 7).1 = [] ∧ (reconcileDiff wEx8 wDet8 7).2 = [] ∧
    processVulnerabilities wFS8 "acme/widgets" "main" "tgt" wDet8 7 =
      (Except.ok (), [StoreOp.fsListVulns "acme/widgets" "main" "tgt"]) := by
  have h := C8_reconcile_idempotent_steady wEx8 wDet8 7 wFS8 "acme/widgets" "main"
    "tgt" rfl
    (by
      intro d hd
      have hd' : d = wD "S" := by simpa [wDet8] using hd
      subst hd'
      exact ⟨wE (wD "S").ID VulnStatus.active, by decide, rfl⟩)
    (by decide)
  exact ⟨h.2.1, h.2.2.1, h.2.2.2⟩

/-! ## C7: frame property of the batched status update -/

/-- C7: `BatchUpdateVulnerabilityStatus` never deletes a record — the
document-ID list is preserved by both the Firestore and the in-memory
implementation, and upserting created records keeps every existing one —
and a status update rewrites only the `Status` field plus (Firestore) the
updated timestamp of the addressed record: records whose ID is not in
the update map are returned unchanged, and the addressed record's other
fields are all preserved. -/
theorem C7_batch_update_frame (store : List (String × Vulnerability))
    (updates : List (String × VulnStatus)) (now : Nat)
    (vulns : List Vulnerability) :
    ((fsBatchUpdateVulnerabilityStatus store updates now).map Prod.fst =
      store.map Prod.fst) ∧
    ((memBatchUpdateVulnerabilityStatus store updates).map Prod.fst =
      store.map Prod.fst) ∧
    (∀ e ∈ store, lookupKey updates e.1 = none →
       e ∈ fsBatchUpdateVulnerabilityStatus store updates now ∧
       e ∈ memBatchUpdateVulnerabilityStatus store updates) ∧
    (∀ e ∈ store, ∀ s, lookupKey updates e.1 = some s →
       (e.1, { e.2 with Status := s, UpdatedAt := now }) ∈
         fsBatchUpdateVulnerabilityStatus store updates now ∧
       (e.1, { e.2 with Status := s }) ∈
         memBatchUpdateVulnerabilityStatus store updates) ∧
    (∀ (v : Vulnerability) (s : VulnStatus) (n2 : Nat),
       ({ v with Status := s, UpdatedAt := n2 } : Vulnerability).ID = v.ID ∧
       ({ v with Status := s, UpdatedAt := n2 } : Vulnerability).PkgName = v.PkgName ∧
       ({ v with Status := s, UpdatedAt := n2 } : Vulnerability).PkgPath = v.PkgPath ∧
       ({ v with Status := s, UpdatedAt := n2 } : Vulnerability).InstalledVersion =
         v.InstalledVersion ∧
       ({ v with Status := s, UpdatedAt := n2 } : Vulnerability).FixedVersion =
         v.FixedVersion ∧
       ({ v with Status := s, UpdatedAt := n2 } : Vulnerability).Severity = v.Severity ∧
       ({ v with Status := s, UpdatedAt := n2 } : Vulnerability).Title = v.Title ∧
       ({ v with Status := s, UpdatedAt := n2 } : Vulnerability).Description =
         v.Description ∧
       ({ v with Status := s, UpdatedAt := n2 } : Vulnerability).References =
         v.References ∧
       ({ v with Status := s, UpdatedAt := n2 } : Vulnerability).PrimaryURL =
         v.PrimaryURL ∧
       ({ v with Status := s, UpdatedAt := n2 } : Vulnerability).CweIDs = v.CweIDs ∧
       ({ v with Status := s, UpdatedAt := n2 } : Vulnerability).CVSS = v.CVSS ∧
       ({ v with Status := s, UpdatedAt := n2 } : Vulnerability).PublishedDate =
         v.PublishedDate ∧
       ({ v with Status := s, UpdatedAt := n2 } : Vulnerability).LastModifiedDate =
         v.LastModifiedDate ∧
       ({ v with Status := s, UpdatedAt := n2 } : Vulnerability).CreatedAt =
         v.CreatedAt ∧
       ({ v with Status := s, UpdatedAt := n2 } : Vulnerability).Status = s ∧
       ({ v with Status := s, UpdatedAt := n2 } : Vulnerability).UpdatedAt = n2) ∧
    (∀ k : String, (lookupKey store k).isSome = true →
       (lookupKey (fsBatchCreateApply store vulns) k).isSome = true) := by
  refine ⟨?_, ?_, ?_, ?_, ?_, ?_⟩
  · induction store with
    | nil => rfl
    | cons e rest ih =>
      simp only [fsBatchUpdateVulnerabilityStatus, List.map_cons] at ih ⊢
      cases lookupKey updates e.1 <;> simp_all
  · induction store with
    | nil => rfl
    | cons e rest ih =>
      simp only [memBatchUpdateVulnerabilityStatus, List.map_cons] at ih ⊢
      cases lookupKey updates e.1 <;> simp_all
  · intro e he hn
    constructor
    · have hfe : (fun e2 : String × Vulnerability =>
          match lookupKey updates e2.1 with
          | some s => (e2.1, { e2.2 with Status := s, UpdatedAt := now })
          | none => e2) e = e := by
        simp [hn]
      exact hfe ▸ List.mem_map_of_mem _ he
    · have hfe : (fun e2 : String × Vulnerability =>
          match lookupKey updates e2.1 with
          | some s => (e2.1, { e2.2 with Status := s })
          | none => e2) e = e := by
        simp [hn]
      exact hfe ▸ List.mem_map_of_mem _ he
  · intro e he s hs
    constructor
    · have hfe : (fun e2 : String × Vulnerability =>
          match lookupKey updates e2.1 with
          | some s2 => (e2.1, { e2.2 with Status := s2, UpdatedAt := now })
          | none => e2) e = (e.1, { e.2 with Status := s, UpdatedAt := now }) := by
        simp [hs]
      exact hfe ▸ List.mem_map_of_mem _ he
    · have hfe : (fun e2 : String × Vulnerability =>
          match lookupKey updates e2.1 with
          | some s2 => (e2.1, { e2.2 with Status := s2 })
          | none => e2) e = (e.1, { e.2 with Status := s }) := by
        simp [hs]
      exact hfe ▸ List.mem_map_of_mem _ he
  · intro v s n2
    exact ⟨rfl, rfl, rfl, rfl, rfl, rfl, rfl, rfl, rfl, rfl, rfl, rfl, rfl, rfl,
      rfl, rfl, rfl⟩
  · intro k
    unfold fsBatchCreateApply
    induction vulns generalizing store with
    | nil => exact fun h => h
    | cons v rest ih =>
      intro h
      simp only [List.foldl_cons]
      apply ih
      by_cases hk : k = v.ID
      · subst hk
        simp [lookupKey_mapInsert_self]
      · rw [lookupKey_mapInsert_ne store v.ID k v hk]
        exact h

/-- Fixture store for the C7 witness. -/
def wStore7 : List (String × Vulnerability) :=
  [("a", wE "a" VulnStatus.active), ("b", wE "b" VulnStatus.fixed)]

/-- Fixture update map for the C7 witness. -/
def wUpd7 : List (String × VulnStatus) := [("a", VulnStatus.fixed)]

/-- Witness for C7 at a concrete store: the addressed record gets only
Status (and, in the Firestore model, UpdatedAt) rewritten, the other
record is untouched, and no record disappears. -/
theorem C7_batch_update_frame_witness :
    ((fsBatchUpdateVulnerabilityStatus wStore7 wUpd7 9).map Prod.fst =
      wStore7.map Prod.fst) ∧
    ("a", { (wE "a" VulnStatus.active) with
            Status := VulnStatus.fixed, UpdatedAt := 9 }) ∈
      fsBatchUpdateVulnerabilityStatus wStore7 wUpd7 9 ∧
    ("b", wE "b" VulnStatus.fixed) ∈ fsBatchUpdateVulnerabilityStatus wStore7 wUpd7 9 ∧
    ("b", wE "b" VulnStatus.fixed) ∈ memBatchUpdateVulnerabilityStatus wStore7 wUpd7 ∧
    (lookupKey (fsBatchCreateApply wStore7 [wE "c" VulnStatus.active]) "b").isSome =
      true := by
  have h := C7_batch_update_frame wStore7 wUpd7 9 [wE "c" VulnStatus.active]
  refine ⟨h.1, ?_, ?_, ?_, ?_⟩
  · exact (h.2.2.2.1 ("a", wE "a" VulnStatus.active) (by decide) VulnStatus.fixed
      (by decide)).1
  · exact (h.2.2.1 ("b", wE "b" VulnStatus.fixed) (by decide) (by decide)).1
  · exact (h.2.2.1 ("b", wE "b" VulnStatus.fixed) (by decide) (by decide)).2
  · exact h.2.2.2.2.2 "b" (by decide)

/-! ## C10: the Firestore key encoder -/

/-- C10: `ToFirestoreID` errors exactly when the owner is empty, the repo
is empty, or either contains a colon; otherwise it returns
`owner ++ ":" ++ repo`.  The function is pure: its embedding takes no
store and issues no store operation. -/
theorem C10_to_firestore_id (owner repo : String) :
    ((∃ e, ToFirestoreID owner repo = Except.error e) ↔
       (owner = "" ∨ repo = "" ∨ owner.toList.contains ':' = true ∨
        repo.toList.contains ':' = true)) ∧
    ((owner ≠ "" ∧ repo ≠ "" ∧ owner.toList.contains ':' = false ∧
        repo.toList.contains ':' = false) →
      ToFirestoreID owner repo = Except.ok (owner ++ ":" ++ repo)) := by
  by_cases h1 : owner = "" ∨ repo = ""
  · have he : ToFirestoreID owner repo =
        Except.error (RepoErr.invalidInput "owner or repo is empty") := by
      simp only [ToFirestoreID, if_pos h1]
    constructor
    · constructor
      · intro _
        rcases h1 with h | h
        · exact Or.inl h
        · exact Or.inr (Or.inl h)
      · intro _
        exact ⟨_, he⟩
    · rintro ⟨ho, hr, -, -⟩
      rcases h1 with h | h
      · exact absurd h ho
      · exact absurd h hr
  · by_cases h2 : owner.toList.contains ':' = true ∨ repo.toList.contains ':' = true
    · have he : ToFirestoreID owner repo = Except.error
          (RepoErr.invalidInput "owner or repo contains invalid character ':'") := by
        simp only [ToFirestoreID, if_neg h1]
        rw [if_pos h2]
      constructor
      · constructor
        · intro _
          rcases h2 with h | h
          · exact Or.inr (Or.inr (Or.inl h))
          · exact Or.inr (Or.inr (Or.inr h))
        · intro _
          exact ⟨_, he⟩
      · rintro ⟨-, -, hc1, hc2⟩
        rcases h2 with h | h
        · rw [h] at hc1
          cases hc1
        · rw [h] at hc2
          cases hc2
    · have hok : ToFirestoreID owner repo = Except.ok (owner ++ ":" ++ repo) := by
        simp only [ToFirestoreID, if_neg h1]
        rw [if_neg h2]
      constructor
      · constructor
        · rintro ⟨e, hev⟩
          rw [hok] at hev
          cases hev
        · intro hcon
          exfalso
          rcases hcon with h | h | h | h
          · exact h1 (Or.inl h)
          · exact h1 (Or.inr h)
          · exact h2 (Or.inl h)
          · exact h2 (Or.inr h)
      · intro _
        exact hok

/-- Witness for C10: a well-formed pair encodes to the colon-joined key. -/
theorem C10_to_firestore_id_witness :
    ToFirestoreID "acme" "widgets" = Except.ok "acme:widgets" :=
  (C10_to_firestore_id "acme" "widgets").2
    ⟨by decide, by decide, by decide, by decide⟩

/-! ## C5: chunked batch creation -/

theorem batchCommitAux_all_ok (commitOk : Nat → Bool) (n : Nat) :
    ∀ (fuel : Nat) (rem : List Vulnerability) (i : Nat),
    (∀ j : Nat, commitOk (i + batchSize * j) = true) →
    batchCommitAux commitOk n fuel rem i =
      (BatchResult.ok, chunksOf batchSize fuel rem) := by
  intro fuel
  induction fuel with
  | zero =>
    intro rem i _
    rfl
  | succ f ih =>
    intro rem i h
    by_cases hr : rem = []
    · simp [batchCommitAux, chunksOf, hr]
    · have h0 : commitOk i = true := by
        have h00 := h 0
        simpa using h00
      have hsh : ∀ j : Nat, commitOk ((i + batchSize) + batchSize * j) = true := by
        intro j
        have hj := h (j + 1)
        have harith : i + batchSize * (j + 1) = (i + batchSize) + batchSize * j := by
          ring
        rwa [harith] at hj
      simp [batchCommitAux, chunksOf, hr, h0,
        ih (rem.drop batchSize) (i + batchSize) hsh]

theorem batchCommitAux_first_fail (commitOk : Nat → Bool) (n : Nat) :
    ∀ (k fuel : Nat) (rem : List Vulnerability) (i : Nat),
    rem.length ≤ fuel →
    batchSize * k < rem.length →
    (∀ j < k, commitOk (i + batchSize * j) = true) →
    commitOk (i + batchSize * k) = false →
    batchCommitAux commitOk n fuel rem i =
      (BatchResult.failed (i + batchSize * k) (min (i + batchSize * k + batchSize) n),
       (chunksOf batchSize fuel rem).take k) := by
  intro k
  induction k with
  | zero =>
    intro fuel rem i hfuel hlt _ hfail
    rw [Nat.mul_zero] at hlt
    cases fuel with
    | zero => omega
    | succ f =>
      have hr : rem ≠ [] := by
        intro hc
        rw [hc] at hlt
        simp at hlt
      have hf0 : commitOk i = false := by simpa using hfail
      simp [batchCommitAux, hr, hf0]
  | succ k2 ih =>
    intro fuel rem i hfuel hlt hok hfail
    have hbs : batchSize = 500 := rfl
    cases fuel with
    | zero =>
      have hz : rem.length = 0 := Nat.le_zero.mp hfuel
      omega
    | succ f =>
      have hr : rem ≠ [] := by
        intro hc
        rw [hc] at hlt
        simp at hlt
      have h0 : commitOk i = true := by
        have h00 := hok 0 (Nat.succ_pos k2)
        simpa using h00
      have hlen : (rem.drop batchSize).length ≤ f := by
        simp only [List.length_drop]
        omega
      have hlt2 : batchSize * k2 < (rem.drop batchSize).length := by
        simp only [List.length_drop]
        have harith : batchSize * (k2 + 1) = batchSize * k2 + batchSize := by ring
        omega
      have hok2 : ∀ j < k2, commitOk ((i + batchSize) + batchSize * j) = true := by
        intro j hj
        have hjj := hok (j + 1) (by omega)
        have harith : i + batchSize * (j + 1) = (i + batchSize) + batchSize * j := by
          ring
        rwa [harith] at hjj
      have hfail2 : commitOk ((i + batchSize) + batchSize * k2) = false := by
        have harith : i + batchSize * (k2 + 1) = (i + batchSize) + batchSize * k2 := by
          ring
        rwa [harith] at hfail
      have hrec := ih f (rem.drop batchSize) (i + batchSize) hlen hlt2 hok2 hfail2
      have harith2 : (i + batchSize) + batchSize * k2 = i + batchSize * (k2 + 1) := by
        ring
      simp [batchCommitAux, chunksOf, hr, h0, hrec, harith2]

theorem chunksOf_join :
    ∀ (fuel : Nat) (l : List Vulnerability), l.length ≤ fuel →
    (chunksOf batchSize fuel l).flatten = l := by
  intro fuel
  induction fuel with
  | zero =>
    intro l h
    have hl : l = [] := List.eq_nil_of_length_eq_zero (Nat.le_zero.mp h)
    simp [hl, chunksOf]
  | succ f ih =>
    intro l h
    by_cases hl : l = []
    · simp [chunksOf, hl]
    · have hlen : (l.drop batchSize).length ≤ f := by
        simp only [List.length_drop]
        have hbs : batchSize = 500 := rfl
        omega
      simp only [chunksOf, hl, if_false, List.flatten_cons, ih (l.drop batchSize) hlen]
      exact List.take_append_drop _ _

theorem chunksOf_mem_bound :
    ∀ (fuel : Nat) (l : List Vulnerability) (c : List Vulnerability),
    c ∈ chunksOf batchSize fuel l → c.length ≤ batchSize ∧ c ≠ [] := by
  intro fuel
  induction fuel with
  | zero =>
    intro l c hc
    simp [chunksOf] at hc
  | succ f ih =>
    intro l c hc
    by_cases hl : l = []
    · simp [chunksOf, hl] at hc
    · simp only [chunksOf, hl, if_false, List.mem_cons] at hc
      rcases hc with rfl | hc
      · constructor
        · simp [List.length_take_le]
        · intro hc2
          have hlenz := congrArg List.length hc2
          simp only [List.length_take, List.length_nil] at hlenz
          have hbs : batchSize = 500 := rfl
          have hlp : 0 < l.length := List.length_pos.mpr hl
          omega
      · exact ih (l.drop batchSize) c hc

/-- C5: `BatchCreateVulnerabilities` partitions its input into
consecutive chunks of at most `batchSize` (jointly re-assembling the
input, each chunk non-empty); when every commit succeeds the committed
chunk list is exactly that partition, and when the commit of chunk `k`
is the first to fail, the call returns the failing chunk's start and end
indices, the committed chunks are exactly the `k` earlier ones, and no
later chunk is attempted. -/
theorem C5_batch_create_chunking (commitOk : Nat → Bool)
    (repoID owner repo fid : String) (vulns : List Vulnerability)
    (hne : vulns ≠ [])
    (hparse : splitSlash repoID = [owner, repo])
    (hfid : ToFirestoreID owner repo = Except.ok fid) :
    ((chunksOf batchSize vulns.length vulns).flatten = vulns) ∧
    (chunksOf batchSize vulns.length vulns ≠ []) ∧
    (∀ c ∈ chunksOf batchSize vulns.length vulns,
       c.length ≤ batchSize ∧ c ≠ []) ∧
    ((∀ j : Nat, commitOk (batchSize * j) = true) →
      BatchCreateVulnerabilities commitOk repoID vulns =
        (BatchResult.ok, chunksOf batchSize vulns.length vulns)) ∧
    (∀ k : Nat, (∀ j < k, commitOk (batchSize * j) = true) →
      commitOk (batchSize * k) = false → batchSize * k < vulns.length →
      BatchCreateVulnerabilities commitOk repoID vulns =
        (BatchResult.failed (batchSize * k)
           (min (batchSize * k + batchSize) vulns.length),
         (chunksOf batchSize vulns.length vulns).take k)) := by
  refine ⟨chunksOf_join vulns.length vulns (Nat.le_refl _), ?_, ?_, ?_, ?_⟩
  · intro hc
    have hj := chunksOf_join vulns.length vulns (Nat.le_refl _)
    rw [hc] at hj
    exact hne hj.symm
  · exact fun c hc => chunksOf_mem_bound vulns.length vulns c hc
  · intro hok
    have hall : ∀ j : Nat, commitOk (0 + batchSize * j) = true := by
      intro j
      simpa using hok j
    have hrun := batchCommitAux_all_ok commitOk vulns.length vulns.length vulns 0 hall
    simp only [BatchCreateVulnerabilities, hparse, hfid]
    exact hrun
  · intro k hok hfail hlt
    have hok0 : ∀ j < k, commitOk (0 + batchSize * j) = true := by
      intro j hj
      simpa using hok j hj
    have hfail0 : commitOk (0 + batchSize * k) = false := by
      simpa using hfail
    have hrun := batchCommitAux_first_fail commitOk vulns.length k vulns.length
      vulns 0 (Nat.le_refl _) hlt hok0 hfail0
    simp only [BatchCreateVulnerabilities, hparse, hfid]
    simpa using hrun

/-- Fixture: 1200 identical records to create. -/
def wVulns : List Vulnerability := List.replicate 1200 (wE "x" VulnStatus.active)

set_option maxRecDepth 1000000 in
/-- Witness for C5: 1200 records commit as exactly three chunks of sizes
500, 500 and 200; with the second chunk's commit failing, the error
carries that chunk's range 500-1000, only the first chunk is committed,
and the third is never attempted. -/
theorem C5_batch_create_chunking_witness :
    BatchCreateVulnerabilities (fun _ => true) "acme/widgets" wVulns =
      (BatchResult.ok, chunksOf batchSize 1200 wVulns) ∧
    (chunksOf batchSize 1200 wVulns).map List.length = [500, 500, 200] ∧
    BatchCreateVulnerabilities (fun i => decide (i ≠ 500)) "acme/widgets" wVulns =
      (BatchResult.failed 500 1000, (chunksOf batchSize 1200 wVulns).take 1) ∧
    ((chunksOf batchSize 1200 wVulns).take 1).map List.length = [500] := by
  have h1 := C5_batch_create_chunking (fun _ => true) "acme/widgets" "acme"
    "widgets" "acme:widgets" wVulns (by decide) (by decide) rfl
  have h2 := C5_batch_create_chunking (fun i => decide (i ≠ 500)) "acme/widgets"
    "acme" "widgets" "acme:widgets" wVulns (by decide) (by decide) rfl
  have hlen : wVulns.length = 1200 := by simp [wVulns]
  refine ⟨?_, by decide, ?_, by decide⟩
  · have hr := h1.2.2.2.1 (fun j => rfl)
    rwa [hlen] at hr
  · have hr := h2.2.2.2.2 1 (by decide) (by decide) (by decide)
    rwa [hlen, show batchSize * 1 = 500 from rfl,
      show (500 : Nat) + batchSize = 1000 from rfl,
      show min 1000 1200 = 1000 from rfl] at hr

/-! ## C4: BigQuery schema synchronization -/

/-- C4: `createOrUpdateBigQueryTable` splits three ways on the fetched
metadata: a not-found fetch (normalized to `none`) creates the table with
the inferred schema and reports `schemaUpdated = false`; an existing
schema structurally equal to the inferred one performs no create and no
update and reports `schemaUpdated = false`; otherwise the table is
updated to the merged schema (existing fields kept in order, new fields
appended) under the fetched ETag and `schemaUpdated = true`. -/
theorem C4_schema_sync_cases (w : BQWorld) (hinfer : w.inferOk = true) :
    (w.metaRaw = MetaFetch.notFound → w.createTableOk = true →
      createOrUpdateBigQueryTable w =
        (Except.ok (w.inferredSchema, false),
         [BQOp.getMetadata, BQOp.createTable w.inferredSchema])) ∧
    (∀ md, w.metaRaw = MetaFetch.found md →
      bqsEqual md.Schema w.inferredSchema = true →
      createOrUpdateBigQueryTable w =
        (Except.ok (w.inferredSchema, false), [BQOp.getMetadata])) ∧
    (∀ md, w.metaRaw = MetaFetch.found md →
      bqsEqual md.Schema w.inferredSchema = false → w.updateTableOk = true →
      createOrUpdateBigQueryTable w =
        (Except.ok (bqsMerge md.Schema w.inferredSchema, true),
         [BQOp.getMetadata,
          BQOp.updateTable (bqsMerge md.Schema w.inferredSchema) md.ETag])) := by
  refine ⟨?_, ?_, ?_⟩
  · intro hmeta hcreate
    simp [createOrUpdateBigQueryTable, hinfer, hmeta, GetMetadata, hcreate]
  · intro md hmeta heq
    simp [createOrUpdateBigQueryTable, hinfer, hmeta, GetMetadata, heq]
  · intro md hmeta hne hupd
    simp [createOrUpdateBigQueryTable, hinfer, hmeta, GetMetadata, hne, hupd]

/-- Fixture schemas for the C4 witness. -/
def wSchemaOld : BQSchema := [⟨"id", "STRING"⟩, ⟨"timestamp", "INTEGER"⟩]

/-- Fixture inferred schema with one extra field. -/
def wSchemaNew : BQSchema :=
  [⟨"id", "STRING"⟩, ⟨"timestamp", "INTEGER"⟩, ⟨"report", "RECORD"⟩]

/-- Fixture BigQuery world (table exists with the narrower schema). -/
def wBQ4 : BQWorld :=
  { inferOk := true, inferredSchema := wSchemaNew,
    metaRaw := MetaFetch.found ⟨wSchemaOld, "etag-1"⟩,
    createTableOk := true, updateTableOk := true, insertAttempt := fun _ => none }

/-- Fixture BigQuery world with no table. -/
def wBQ4n : BQWorld := { wBQ4 with metaRaw := MetaFetch.notFound }

/-- Fixture BigQuery world whose stored schema already matches. -/
def wBQ4e : BQWorld :=
  { wBQ4 with metaRaw := MetaFetch.found ⟨wSchemaNew, "etag-2"⟩ }

/-- Witness for C4: the three branches at concrete schemas — create on
not-found, no-op on equal schema, merge-and-update (old fields first, new
field appended, under the fetched ETag) otherwise. -/
theorem C4_schema_sync_cases_witness :
    createOrUpdateBigQueryTable wBQ4n =
      (Except.ok (wSchemaNew, false),
       [BQOp.getMetadata, BQOp.createTable wSchemaNew]) ∧
    createOrUpdateBigQueryTable wBQ4e =
      (Except.ok (wSchemaNew, false), [BQOp.getMetadata]) ∧
    createOrUpdateBigQueryTable wBQ4 =
      (Except.ok (wSchemaNew, true),
       [BQOp.getMetadata, BQOp.updateTable wSchemaNew "etag-1"]) ∧
    bqsMerge wSchemaOld wSchemaNew = wSchemaNew := by
  have hn := (C4_schema_sync_cases wBQ4n rfl).1 rfl rfl
  have he := (C4_schema_sync_cases wBQ4e rfl).2.1 ⟨wSchemaNew, "etag-2"⟩ rfl
    (by decide)
  have hu := (C4_schema_sync_cases wBQ4 rfl).2.2 ⟨wSchemaOld, "etag-1"⟩ rfl
    (by decide) rfl
  have hm : bqsMerge wSchemaOld wSchemaNew = wSchemaNew := by decide
  refine ⟨hn, he, ?_, hm⟩
  rw [hu]
  simp only [show ({ Schema := wSchemaOld, ETag := "etag-1" } :
    TableMetadata).Schema = wSchemaOld from rfl,
    show wBQ4.inferredSchema = wSchemaNew from rfl, hm]

/-! ## C2: the retry flag never reaches the BigQuery write -/

/-- Attempt outcomes for the C2 evidence: the first `attemptInsert` fails
with the recognizable schema-mismatch error, every later attempt would
succeed. -/
def mismatchOnce : Nat → Option InsertErr := fun n =>
  if n = 0 then
    some (InsertErr.grpcInvalidArgument (schemaMismatchMsgHead ++ " extra1"))
  else none

/-- Attempt outcomes that always fail with the schema-mismatch error. -/
def mismatchAlways : Nat → Option InsertErr := fun _ =>
  some (InsertErr.grpcInvalidArgument (schemaMismatchMsgHead ++ " extra1"))

/-- C2 evidence: `InsertScanResult`'s BigQuery write stores the
`schemaUpdated` flag in a context value, but `Client.Insert` reads the
retry flag only from its variadic options and the call site passes none —
so even with `schemaUpdated = true` a schema-mismatch failure returns
immediately after one attempt with no backoff sleep (first conjunct),
although the error is recognized as a schema mismatch (second) and the
retry loop, had the flag been passed as `WithRetry true`, would have
recovered on the second attempt after one 5s backoff (third) and does
implement the claimed schedule — up to 10 retries, 11 attempts, backoff
5s growing by 1.5x capped at 60s (fourth). -/
theorem C2_schema_retry_flag_dropped :
    insertScanResultBQWrite true [] mismatchOnce =
      ⟨some (InsertErr.grpcInvalidArgument (schemaMismatchMsgHead ++ " extra1")),
       1, []⟩ ∧
    isSchemaNotFoundError
      (InsertErr.grpcInvalidArgument (schemaMismatchMsgHead ++ " extra1")) = true ∧
    ClientInsert [] mismatchOnce [WithRetry true] = ⟨none, 2, [initialBackoff]⟩ ∧
    ClientInsert [] mismatchAlways [WithRetry true] =
      ⟨some (InsertErr.wrapped 11
         (InsertErr.grpcInvalidArgument (schemaMismatchMsgHead ++ " extra1"))),
       11,
       [5000000000, 7500000000, 11250000000, 16875000000, 25312500000,
        37968750000, 56953125000, 60000000000, 60000000000, 60000000000]⟩ := by
  refine ⟨?_, ?_, ?_, ?_⟩ <;> decide

/-! ## C3: validation failures abort before any store operation -/

/-- Default result used by positional access in validation lemmas. -/
def dfltResult : TrivyResult := { Target := "", Class := "", Typ := "", Vulnerabilities := [] }

theorem firstEmptyTarget_isSome :
    ∀ (rs : List TrivyResult) (s i : Nat), i < rs.length →
    (rs.getD i dfltResult).Target = "" →
    (firstEmptyTarget rs s).isSome = true := by
  intro rs
  induction rs with
  | nil =>
    intro s i h
    simp at h
  | cons r rest ih =>
    intro s i hlen htgt
    by_cases hr : r.Target = ""
    · simp [firstEmptyTarget, hr]
    · cases i with
      | zero =>
        rw [List.getD_cons_zero] at htgt
        exact absurd htgt hr
      | succ i2 =>
        simp only [firstEmptyTarget, hr, if_false]
        rw [List.getD_cons_succ] at htgt
        exact ih (s + 1) i2 (by simpa using hlen) htgt

theorem firstEmptyTarget_at :
    ∀ (rs : List TrivyResult) (s i : Nat), i < rs.length →
    (rs.getD i dfltResult).Target = "" →
    (∀ j < i, (rs.getD j dfltResult).Target ≠ "") →
    firstEmptyTarget rs s = some (ValidationErr.emptyTarget (s + i)) := by
  intro rs
  induction rs with
  | nil =>
    intro s i h
    simp at h
  | cons r rest ih =>
    intro s i hlen htgt hbefore
    cases i with
    | zero =>
      rw [List.getD_cons_zero] at htgt
      simp [firstEmptyTarget, htgt]
    | succ i2 =>
      have hr : r.Target ≠ "" := by
        have hb := hbefore 0 (Nat.succ_pos i2)
        rwa [List.getD_cons_zero] at hb
      simp only [firstEmptyTarget, hr, if_false]
      rw [List.getD_cons_succ] at htgt
      have hbefore2 : ∀ j < i2, (rest.getD j dfltResult).Target ≠ "" := by
        intro j hj
        have hb := hbefore (j + 1) (by omega)
        rwa [List.getD_cons_succ] at hb
      rw [ih (s + 1) i2 (by simpa using hlen) htgt hbefore2]
      congr 1
      congr 1
      omega

theorem validate_fails (report : Report)
    (hbad : report.SchemaVersion ≤ 0 ∨ report.ArtifactName = "" ∨
      report.Results = none ∨
      (∃ rs i, report.Results = some rs ∧ i < rs.length ∧
        (rs.getD i dfltResult).Target = "")) :
    (Report.Validate report).isSome = true := by
  unfold Report.Validate
  by_cases h1 : report.SchemaVersion ≤ 0
  · simp [h1]
  · by_cases h2 : report.ArtifactName = ""
    · simp [h1, h2]
    · cases hres : report.Results with
      | none => simp [h1, h2, hres]
      | some rs =>
        simp only [h1, h2, hres, if_false]
        rcases hbad with h | h | h | ⟨rs2, i, hrs2, hlen, htgt⟩
        · exact absurd h h1
        · exact absurd h h2
        · rw [hres] at h
          cases h
        · rw [hres] at hrs2
          injection hrs2 with hh
          subst hh
          exact firstEmptyTarget_isSome rs 0 i hlen htgt

/-- C3: for every invalid report — schema version at most 0, empty
artifact name, nil results, or some result with an empty target —
`InsertScanResult` returns a validation error and its store-operation
trace is empty: no analytical read, create, update or write, and no
relational upsert or batch call.  When the empty target at index `i` is
the offense, the error carries that index. -/
theorem C3_invalid_report_aborts (w : World) (scanID : String) (now : Nat)
    (meta : GitHubMetadata) (report : Report)
    (hbad : report.SchemaVersion ≤ 0 ∨ report.ArtifactName = "" ∨
      report.Results = none ∨
      (∃ rs i, report.Results = some rs ∧ i < rs.length ∧
        (rs.getD i dfltResult).Target = "")) :
    (∃ e, (InsertScanResult w scanID now meta report).1 =
       Except.error (IngestErr.invalidReport e)) ∧
    (InsertScanResult w scanID now meta report).2 = [] ∧
    (∀ rs i, 0 < report.SchemaVersion → report.ArtifactName ≠ "" →
      report.Results = some rs → i < rs.length →
      (rs.getD i dfltResult).Target = "" →
      (∀ j < i, (rs.getD j dfltResult).Target ≠ "") →
      Report.Validate report = some (ValidationErr.emptyTarget i)) := by
  have hv := validate_fails report hbad
  have hthird : ∀ rs i, 0 < report.SchemaVersion → report.ArtifactName ≠ "" →
      report.Results = some rs → i < rs.length →
      (rs.getD i dfltResult).Target = "" →
      (∀ j < i, (rs.getD j dfltResult).Target ≠ "") →
      Report.Validate report = some (ValidationErr.emptyTarget i) := by
    intro rs i hsv hart hres hlen htgt hbef
    have h1 : ¬ report.SchemaVersion ≤ 0 := by omega
    unfold Report.Validate
    simp only [h1, hart, hres, if_false]
    have hf := firstEmptyTarget_at rs 0 i hlen htgt hbef
    simpa using hf
  rcases hsome : Report.Validate report with - | e
  · rw [hsome] at hv
    cases hv
  · refine ⟨⟨e, ?_⟩, ?_, ?_⟩
    · simp [InsertScanResult, hsome]
    · simp [InsertScanResult, hsome]
    · intro rs i hsv hart hres hlen htgt hbef
      rw [← hsome]
      exact hthird rs i hsv hart hres hlen htgt hbef

/-- Fixture invalid report: two results, the second with an empty
target. -/
def wBadReport : Report :=
  { SchemaVersion := 2, ArtifactType := "filesystem", ArtifactName := "art",
    Results := some [⟨"go.mod", "lang-pkgs", "gomod", []⟩,
                     ⟨"", "lang-pkgs", "npm", []⟩] }

/-- Fixture metadata. -/
def wMeta : GitHubMetadata :=
  { Owner := "acme", RepoName := "widgets", RepoID := 123, Branch := "main",
    CommitID := "c0ffee", DefaultBranch := "main", InstallationID := 5 }

/-- Fixture BigQuery collaborator that always succeeds (no table yet). -/
def wBQok : BQWorld :=
  { inferOk := true, inferredSchema := wSchemaNew,
    metaRaw := MetaFetch.notFound, createTableOk := true,
    updateTableOk := true, insertAttempt := fun _ => none }

/-- Fixture Firestore collaborator that always succeeds (empty store). -/
def wFSok : FSWorld :=
  { repoOpOk := true, branchOpOk := true, targetOpOk := fun _ => true,
    listVulnsRes := fun _ => Except.ok [],
    batchCreateOk := fun _ => true, batchUpdateOk := fun _ => true }

/-- Fixture world whose collaborators all succeed. -/
def wWorldOk : World := { bq := some wBQok, fs := some wFSok }

/-- Witness for C3: the concrete invalid report (empty target at index 1)
is rejected with that index and produces an empty trace even though both
stores are configured and would succeed. -/
theorem C3_invalid_report_aborts_witness :
    (∃ e, (InsertScanResult wWorldOk "scan-1" 5 wMeta wBadReport).1 =
       Except.error (IngestErr.invalidReport e)) ∧
    (InsertScanResult wWorldOk "scan-1" 5 wMeta wBadReport).2 = [] ∧
    Report.Validate wBadReport = some (ValidationErr.emptyTarget 1) := by
  have h := C3_invalid_report_aborts wWorldOk "scan-1" 5 wMeta wBadReport
    (Or.inr (Or.inr (Or.inr ⟨(wBadReport.Results).getD [], 1, rfl, by decide,
      by decide⟩)))
  refine ⟨h.1, h.2.1, ?_⟩
  exact h.2.2 ((wBadReport.Results).getD []) 1 (by decide) (by decide) rfl
    (by decide) (by decide) (by decide)

/-! ## C9: what the entry point returns on success -/

/-- All configured BigQuery operations succeed. -/
def BQWorldOk (bw : BQWorld) : Prop :=
  bw.inferOk = true ∧ (∀ msg, bw.metaRaw ≠ MetaFetch.fail msg) ∧
  bw.createTableOk = true ∧ bw.updateTableOk = true ∧ bw.insertAttempt 0 = none

/-- All configured Firestore operations succeed. -/
def FSWorldOk (fw : FSWorld) : Prop :=
  fw.repoOpOk = true ∧ fw.branchOpOk = true ∧ (∀ t, fw.targetOpOk t = true) ∧
  (∀ t, ∃ l, fw.listVulnsRes t = Except.ok l) ∧
  (∀ t, fw.batchCreateOk t = true) ∧ (∀ t, fw.batchUpdateOk t = true)

/-- All configured store operations succeed. -/
def WorldOk (w : World) : Prop :=
  (∀ bw, w.bq = some bw → BQWorldOk bw) ∧ (∀ fw, w.fs = some fw → FSWorldOk fw)

theorem createOrUpdateBigQueryTable_ok (bw : BQWorld) (h : BQWorldOk bw) :
    ∃ sch su ops, createOrUpdateBigQueryTable bw = (Except.ok (sch, su), ops) := by
  obtain ⟨hi, hm, hc, hu, -⟩ := h
  cases hmr : bw.metaRaw with
  | notFound =>
    refine ⟨bw.inferredSchema, false,
      [BQOp.getMetadata, BQOp.createTable bw.inferredSchema], ?_⟩
    simp [createOrUpdateBigQueryTable, hi, hmr, GetMetadata, hc]
  | found md =>
    by_cases he : bqsEqual md.Schema bw.inferredSchema
    · refine ⟨bw.inferredSchema, false, [BQOp.getMetadata], ?_⟩
      simp [createOrUpdateBigQueryTable, hi, hmr, GetMetadata, he]
    · refine ⟨bqsMerge md.Schema bw.inferredSchema, true,
        [BQOp.getMetadata,
         BQOp.updateTable (bqsMerge md.Schema bw.inferredSchema) md.ETag], ?_⟩
      simp [createOrUpdateBigQueryTable, hi, hmr, GetMetadata, he, hu]
  | fail msg => exact absurd hmr (hm msg)

theorem insertScanResultBQWrite_ok (b : Bool) (attemptRes : Nat → Option InsertErr)
    (h : attemptRes 0 = none) :
    (insertScanResultBQWrite b [] attemptRes).result = none := by
  simp [insertScanResultBQWrite, ClientInsert, insertLoop, h]

theorem processVulnerabilities_ok (w : FSWorld) (repoID branchName targetID : String)
    (dv : List DetectedVulnerability) (ts : Nat)
    (hl : ∃ l, w.listVulnsRes targetID = Except.ok l)
    (hc : w.batchCreateOk targetID = true) (hu : w.batchUpdateOk targetID = true) :
    (processVulnerabilities w repoID branchName targetID dv ts).1 =
      Except.ok () := by
  obtain ⟨l, hl⟩ := hl
  by_cases h1 : (reconcileDiff l dv ts).1 = [] <;>
    by_cases h2 : (reconcileDiff l dv ts).2 = [] <;>
      simp [processVulnerabilities, hl, h1, h2, hc, hu]

theorem insertToFirestoreLoop_ok (w : FSWorld) (repoID branchName : String)
    (ts : Nat) (hfw : FSWorldOk w) :
    ∀ rs : List TrivyResult,
    (insertToFirestoreLoop w repoID branchName ts rs).1 = Except.ok () := by
  obtain ⟨-, -, ht, hl, hc, hu⟩ := hfw
  intro rs
  induction rs with
  | nil => rfl
  | cons r rest ih =>
    have hp := processVulnerabilities_ok w repoID branchName (ToTargetID r.Target)
      r.Vulnerabilities ts (hl _) (hc _) (hu _)
    cases hq : processVulnerabilities w repoID branchName (ToTargetID r.Target)
        r.Vulnerabilities ts with
    | mk pres pops =>
      rw [hq] at hp
      simp only at hp
      simp [insertToFirestoreLoop, ht (ToTargetID r.Target), hq, hp, ih]

theorem insertToFirestore_ok (w : FSWorld) (meta : GitHubMetadata) (scanRec : Scan)
    (report : Report) (hfw : FSWorldOk w) :
    (insertToFirestore w meta scanRec report).1 = Except.ok () := by
  have hloop := insertToFirestoreLoop_ok w (meta.Owner ++ "/" ++ meta.RepoName)
    meta.Branch scanRec.Timestamp hfw (report.Results.getD [])
  obtain ⟨hr, hb, -, -, -, -⟩ := hfw
  cases hq : insertToFirestoreLoop w (meta.Owner ++ "/" ++ meta.RepoName)
      meta.Branch scanRec.Timestamp (report.Results.getD []) with
  | mk lres lops =>
    rw [hq] at hloop
    simp only at hloop
    simp [insertToFirestore, hr, hb, hq, hloop]

/-- C9 (amended): on a valid report with all configured store operations
succeeding, `InsertScanResult` returns a bare nil error — its Go result
type is `error` only, so the success value carries no scan ID — while the
generated scan ID travels only inside the written analytical record:
when BigQuery is configured, the trace contains an insert of a record
whose scan carries exactly the generated ID and timestamp. -/
theorem C9_insert_scan_result_success (w : World) (scanID : String) (now : Nat)
    (meta : GitHubMetadata) (report : Report)
    (hv : Report.Validate report = none) (hok : WorldOk w) :
    (InsertScanResult w scanID now meta report).1 = Except.ok () ∧
    (∀ bw, w.bq = some bw →
      ∃ rec, StoreOp.bq (BQOp.insertRow rec) ∈
          (InsertScanResult w scanID now meta report).2 ∧
        rec.scan.ID = scanID ∧ rec.scan.Timestamp = now) := by
  obtain ⟨hbq, hfs⟩ := hok
  cases hwbq : w.bq with
  | none =>
    constructor
    · cases hwfs : w.fs with
      | none => simp [InsertScanResult, hv, hwbq, hwfs]
      | some fw =>
        have hfok := insertToFirestore_ok fw meta
          ⟨scanID, now, meta, report⟩ report (hfs fw hwfs)
        cases hq : insertToFirestore fw meta ⟨scanID, now, meta, report⟩ report with
        | mk fres fops =>
          rw [hq] at hfok
          simp only at hfok
          simp [InsertScanResult, hv, hwbq, hwfs, hq, hfok]
    · intro bw hbw
      exact Option.noConfusion hbw
  | some bw =>
    have hbwok := hbq bw hwbq
    obtain ⟨sch, su, ops, hco⟩ := createOrUpdateBigQueryTable_ok bw hbwok
    have hins := insertScanResultBQWrite_ok su bw.insertAttempt hbwok.2.2.2.2
    have hrec : InsertScanResult w scanID now meta report =
        (let bqTrace := ops.map StoreOp.bq ++
           [StoreOp.bq (BQOp.insertRow ⟨⟨scanID, now, meta, report⟩, (now : Int)⟩)]
         match w.fs with
         | none => (Except.ok (), bqTrace)
         | some fw =>
           let r := insertToFirestore fw meta ⟨scanID, now, meta, report⟩ report
           match r.1 with
           | Except.error m => (Except.error (IngestErr.fsFailure m), bqTrace ++ r.2)
           | Except.ok _ => (Except.ok (), bqTrace ++ r.2)) := by
      cases hrun : insertScanResultBQWrite su [] bw.insertAttempt with
      | mk rres ratt rsl =>
        rw [hrun] at hins
        simp only at hins
        simp only [InsertScanResult, hv, hwbq, hco, hrun, hins]
    constructor
    · rw [hrec]
      cases hwfs : w.fs with
      | none => simp
      | some fw =>
        have hfok := insertToFirestore_ok fw meta
          ⟨scanID, now, meta, report⟩ report (hfs fw hwfs)
        simp [hfok]
    · intro bw2 hbw2
      refine ⟨⟨⟨scanID, now, meta, report⟩, (now : Int)⟩, ?_, rfl, rfl⟩
      rw [hrec]
      cases hwfs : w.fs with
      | none =>
        simp
      | some fw =>
        cases hq3 : (insertToFirestore fw meta ⟨scanID, now, meta, report⟩
            report).1 with
        | error m => simp [hq3]
        | ok u => simp [hq3]

/-- Fixture valid report (empty results list, which is valid — only a nil
list is rejected). -/
def wGoodReport : Report :=
  { SchemaVersion := 2, ArtifactName := "art", ArtifactType := "filesystem",
    Results := some [] }

theorem wWorldOk_ok : WorldOk wWorldOk := by
  constructor
  · intro bw hbw
    have hb : wBQok = bw := by
      injection hbw
    subst hb
    exact ⟨rfl, (fun msg hmm => by cases hmm), rfl, rfl, rfl⟩
  · intro fw hfw
    have hf : wFSok = fw := by
      injection hfw
    subst hf
    exact ⟨rfl, rfl, fun _ => rfl, fun t => ⟨[], rfl⟩, fun _ => rfl, fun _ => rfl⟩

/-- Witness for C9 at a concrete world where both stores are configured
and succeed: the entry point returns the bare nil error and the written
analytical record carries the generated scan ID. -/
theorem C9_insert_scan_result_success_witness :
    (InsertScanResult wWorldOk "scan-1" 5 wMeta wGoodReport).1 = Except.ok () ∧
    ∃ rec, StoreOp.bq (BQOp.insertRow rec) ∈
        (InsertScanResult wWorldOk "scan-1" 5 wMeta wGoodReport).2 ∧
      rec.scan.ID = "scan-1" ∧ rec.scan.Timestamp = 5 := by
  have h := C9_insert_scan_result_success wWorldOk "scan-1" 5 wMeta wGoodReport
    rfl wWorldOk_ok
  exact ⟨h.1, h.2 wBQok rfl⟩

/-- Fixture world with only BigQuery configured, for the C9
counterexample. -/
def wWorldBQ : World := { bq := some wBQok, fs := none }

/-- C9 counterexample: the claim says the entry point "returns the
freshly generated scan ID together with a nil error", but the function's
result type is a bare error.  At a concrete successful ingestion, two
runs differing only in the generated scan ID return the very same value
`Except.ok ()` — the return value cannot carry the scan ID — while the
scan records they write differ, showing the ID exists but is only
recorded in the store, never returned. -/
theorem C9_insert_scan_result_counterexample :
    (InsertScanResult wWorldBQ "scan-a" 5 wMeta wGoodReport).1 =
      (InsertScanResult wWorldBQ "scan-b" 5 wMeta wGoodReport).1 ∧
    (InsertScanResult wWorldBQ "scan-a" 5 wMeta wGoodReport).1 = Except.ok () ∧
    (InsertScanResult wWorldBQ "scan-a" 5 wMeta wGoodReport).2 ≠
      (InsertScanResult wWorldBQ "scan-b" 5 wMeta wGoodReport).2 := by
  exact ⟨rfl, rfl, by decide⟩

/-! ## C6: the vulnerability identity hash -/

theorem beBytes_length (k v : Nat) : (beBytes k v).length = k := by
  induction k generalizing v with
  | zero => rfl
  | succ k2 ih => simp [beBytes, ih]

theorem sha256Bytes_length (msg : List Nat) : (sha256Bytes msg).length = 32 := by
  unfold sha256Bytes
  simp [beBytes_length]

theorem flatMap_byteHex_length (bs : List Nat) :
    (bs.flatMap byteHex).length = 2 * bs.length := by
  induction bs with
  | nil => rfl
  | cons b rest ih =>
    simp only [List.flatMap_cons, List.length_append, ih, byteHex]
    simp
    ring

theorem ID_length (v : DetectedVulnerability) : v.ID.length = 64 := by
  show (bytesToHex (sha256Bytes (strBytes (v.VulnerabilityID ++ "|" ++ v.PkgName ++
    "|" ++ v.PkgPath ++ "|" ++ v.PkgID)))).length = 64
  show (List.flatMap (sha256Bytes (strBytes (v.VulnerabilityID ++ "|" ++
    v.PkgName ++ "|" ++ v.PkgPath ++ "|" ++ v.PkgID))) byteHex).length = 64
  rw [flatMap_byteHex_length, sha256Bytes_length]

/-- The sixteen hexadecimal characters of the digest alphabet. -/
def hexChars : List Char := "0123456789abcdef".toList

theorem getD_mem_or {α : Type} (l : List α) (n : Nat) (d : α) :
    l.getD n d ∈ l ∨ l.getD n d = d := by
  induction l generalizing n with
  | nil =>
    right
    cases n <;> rfl
  | cons a rest ih =>
    cases n with
    | zero =>
      left
      rw [List.getD_cons_zero]
      exact List.mem_cons_self _ _
    | succ n2 =>
      rw [List.getD_cons_succ]
      rcases ih n2 with h | h
      · exact Or.inl (List.mem_cons_of_mem _ h)
      · exact Or.inr h

theorem hexDigit_mem (n : Nat) : hexDigit n ∈ hexChars := by
  unfold hexDigit
  rcases getD_mem_or "0123456789abcdef".toList n '0' with h | h
  · exact h
  · rw [h]
    decide

theorem ID_chars_hex (v : DetectedVulnerability) :
    ∀ c ∈ v.ID.toList, c ∈ hexChars := by
  intro c hc
  have hc2 : c ∈ List.flatMap (sha256Bytes (strBytes
      (v.VulnerabilityID ++ "|" ++ v.PkgName ++ "|" ++ v.PkgPath ++ "|" ++
       v.PkgID))) byteHex := hc
  rcases List.mem_flatMap.mp hc2 with ⟨b, -, hcb⟩
  rcases List.mem_cons.mp hcb with rfl | hcb2
  · exact hexDigit_mem _
  · rcases List.mem_cons.mp hcb2 with rfl | hcb3
    · exact hexDigit_mem _
    · cases hcb3

/-- The base test vector of `TestDetectedVulnerabilityID`. -/
def tvBase : DetectedVulnerability :=
  { VulnerabilityID := "CVE-2024-0001", PkgName := "test-package",
    PkgPath := "/path/to/package", PkgID := "test-package@1.0.0",
    InstalledVersion := "", FixedVersion := "", Severity := "", Title := "",
    Description := "", References := [], PrimaryURL := "", CweIDs := [],
    CVSS := [], PublishedDate := "", LastModifiedDate := "" }

/-- Test vector differing from the base only in the advisory ID. -/
def tvVid : DetectedVulnerability := { tvBase with VulnerabilityID := "CVE-2024-0002" }

/-- Test vector differing only in the package name. -/
def tvName : DetectedVulnerability := { tvBase with PkgName := "other-package" }

/-- Test vector differing only in the package path. -/
def tvPath : DetectedVulnerability := { tvBase with PkgPath := "/other/path" }

/-- Test vector differing only in the package identifier. -/
def tvPkgID : DetectedVulnerability := { tvBase with PkgID := "test-package@2.0.0" }

set_option maxRecDepth 1000000 in
/-- C6 (amended): `ID()` is a deterministic total function of exactly the
four identity fields, returning a 64-character string over the hex
alphabet: vulnerabilities equal on {vulnerability ID, package name,
package path, package identifier} share the ID whatever their severity,
description, versions or CVSS; changing any other field never changes the
ID; and on the repository's own test vectors, changing any single one of
the four identity fields does change the ID.  (The universal single-field
inequality cannot hold for a fixed-length digest; see the
counterexample.) -/
theorem C6_identity_hash (v1 v2 : DetectedVulnerability)
    (h1 : v1.VulnerabilityID = v2.VulnerabilityID) (h2 : v1.PkgName = v2.PkgName)
    (h3 : v1.PkgPath = v2.PkgPath) (h4 : v1.PkgID = v2.PkgID) :
    v1.ID = v2.ID ∧
    v1.ID.length = 64 ∧
    (∀ c ∈ v1.ID.toList, c ∈ hexChars) ∧
    (∀ (v : DetectedVulnerability) (sev desc iv fv : String)
       (cvss : List (String × String)),
       ({ v with Severity := sev, Description := desc, InstalledVersion := iv,
                 FixedVersion := fv, CVSS := cvss } : DetectedVulnerability).ID =
         v.ID) ∧
    tvBase.ID ≠ tvVid.ID ∧ tvBase.ID ≠ tvName.ID ∧
    tvBase.ID ≠ tvPath.ID ∧ tvBase.ID ≠ tvPkgID.ID := by
  refine ⟨?_, ID_length v1, ID_chars_hex v1, ?_, ?_, ?_, ?_, ?_⟩
  · show bytesToHex (sha256Bytes (strBytes (v1.VulnerabilityID ++ "|" ++
      v1.PkgName ++ "|" ++ v1.PkgPath ++ "|" ++ v1.PkgID))) = _
    rw [h1, h2, h3, h4]
    rfl
  · intro v sev desc iv fv cvss
    rfl
  · decide
  · decide
  · decide
  · decide

set_option maxRecDepth 1000000 in
/-- Witness for C6 at concrete inputs: two vulnerabilities equal on the
four identity fields but with different severities and descriptions share
their 64-character ID. -/
theorem C6_identity_hash_witness :
    ({ tvBase with Severity := "HIGH" } : DetectedVulnerability).ID =
      ({ tvBase with Severity := "LOW", Description := "changed" } :
        DetectedVulnerability).ID ∧
    ({ tvBase with Severity := "HIGH" } : DetectedVulnerability).ID.length = 64 := by
  have h := C6_identity_hash { tvBase with Severity := "HIGH" }
    { tvBase with Severity := "LOW", Description := "changed" } rfl rfl rfl rfl
  exact ⟨h.1, h.2.1⟩

theorem char_finite : Finite Char := by
  refine Finite.of_injective
    (fun c : Char => (⟨c.val.toNat, c.val.toBitVec.isLt⟩ : Fin 4294967296)) ?_
  intro a b h
  have h2 : a.val.toNat = b.val.toNat := congrArg Fin.val h
  have h3 : a.val.toBitVec = b.val.toBitVec := BitVec.eq_of_toNat_eq h2
  have h4 : a.val = b.val := by
    cases hva : a.val with
    | mk av =>
      cases hvb : b.val with
      | mk bv =>
        rw [hva, hvb] at h3
        simp only at h3
        rw [h3]
  exact Char.ext h4

/-- C6 counterexample: the claim's universal statement — any two
vulnerabilities sharing package name, path and identifier but differing
in vulnerability ID have different IDs — is false for the fixed-length
digest: the IDs of infinitely many distinct vulnerability IDs live in the
finite set of 64-character strings, so two must collide (pigeonhole; the
collision is non-constructive but its existence refutes the universal
claim as stated). -/
theorem C6_identity_hash_counterexample :
    ¬ (∀ v1 v2 : DetectedVulnerability,
        v1.PkgName = v2.PkgName → v1.PkgPath = v2.PkgPath → v1.PkgID = v2.PkgID →
        v1.VulnerabilityID ≠ v2.VulnerabilityID →
        DetectedVulnerability.ID v1 ≠ DetectedVulnerability.ID v2) := by
  intro H
  haveI : Finite Char := char_finite
  let g : Nat → DetectedVulnerability := fun n =>
    { tvBase with VulnerabilityID := String.mk (List.replicate n 'a') }
  let f : Nat → (Fin 64 → Char) := fun n i => ((g n).ID.toList).getD i.val 'a'
  obtain ⟨n, m, hnm, hf⟩ := Finite.exists_ne_map_eq_of_infinite f
  have hlen : ∀ j : Nat, ((g j).ID.toList).length = 64 := by
    intro j
    show ((g j).ID.data).length = 64
    exact ID_length (g j)
  have hdata : (g n).ID.toList = (g m).ID.toList := by
    apply List.ext_getElem
    · rw [hlen n, hlen m]
    · intro i hi1 hi2
      have hi64 : i < 64 := by
        rw [hlen n] at hi1
        exact hi1
      have hfi := congrFun hf ⟨i, hi64⟩
      show ((g n).ID.toList)[i] = ((g m).ID.toList)[i]
      rw [← List.getD_eq_getElem ((g n).ID.toList) 'a' hi1,
          ← List.getD_eq_getElem ((g m).ID.toList) 'a' hi2]
      exact hfi
  have hid : (g n).ID = (g m).ID := String.ext hdata
  have hne : (g n).VulnerabilityID ≠ (g m).VulnerabilityID := by
    intro he
    apply hnm
    have hlr := congrArg String.length he
    have hl1 : (String.mk (List.replicate n 'a')).length = n := by
      show (List.replicate n 'a').length = n
      simp
    have hl2 : (String.mk (List.replicate m 'a')).length = m := by
      show (List.replicate m 'a').length = m
      simp
    have : (String.mk (List.replicate n 'a')).length =
        (String.mk (List.replicate m 'a')).length := hlr
    rw [hl1, hl2] at this
    exact this
  exact H (g n) (g m) rfl rfl rfl hne hid
end Octovy
